import Mathlib

/-! Verification model of the InvestInstruments incremental sync engine.

Shallow embedding of the synchronization and potential-computation logic of
the InvestInstruments repository (`GorbunovInvestInstruments/data_forecasts.py`,
`data_prices.py`, `potentials.py` and
`src/invest_core/forecasts.py`, `potentials.py`, `moex_history.py`),
with theorems settling the frozen claims about it.

Conventions used throughout:
* Python floats are modelled as rationals (`ℚ`).
* SQL NULL is modelled with `Option`; a nullable scalar column that may also
  hold text is modelled by `SqlVal`.
* sha256 fingerprints are modelled by the canonical string that is hashed
  (as a `List Char`): two fingerprints are equal exactly when the hashed
  canonical strings are equal (sha256 is assumed collision-free, which is
  the direction favouring the specification).
* SQL tables are lists of row structures; `ORDER BY date DESC LIMIT 1` is a
  fold picking the maximal row (ties resolved towards the largest rowid,
  i.e. the most recently inserted row).
-/

namespace Invest

/-- Absolute tolerance `1e-6` used by `data_forecasts._num_eq`. -/
def tol6 : ℚ := 1 / 1000000

/-- Tolerance `1e-9` used by the potential calculators. -/
def tol9 : ℚ := 1 / 1000000000

/-- Python `x or ""` on an optional string (`None` and `""` both give `""`). -/
def orEmpty (o : Option String) : String := o.getD ""

/-- Python `x or None` on an optional string (`""` collapses to `None`). -/
def orNone (o : Option String) : Option String :=
  match o with
  | none => none
  | some s => if s = "" then none else some s

/-- Embedding of `data_forecasts._num_eq`: two `None`s are equal, one `None`
and one value differ, two numbers are compared with
`math.isclose(rel_tol=0, abs_tol=1e-6)`, i.e. `|a - b| <= 1e-6`. -/
def numEq (a b : Option ℚ) : Bool :=
  match a, b with
  | none, none => true
  | some x, some y => decide (|x - y| ≤ tol6)
  | _, _ => false

/-- The business fields of one consensus record, as handed to
`AddConsensusForecasts` (after `_parse_money` normalization of the three
price fields; `get` lookups give `None` for absent keys). -/
structure ConsensusFields where
  ticker : Option String
  recommendation : Option String
  currency : Option String
  priceConsensus : Option ℚ
  minTarget : Option ℚ
  maxTarget : Option ℚ
  deriving DecidableEq, Repr

/-- Field-by-field comparison of `data_forecasts._same_record` between the
latest stored row and the incoming record: ticker via `(x or "")`,
recommendation and currency via `(x or None)`, prices via `_num_eq`. -/
def sameFields (last rec : ConsensusFields) : Bool :=
  orEmpty last.ticker = orEmpty rec.ticker
    ∧ orNone last.recommendation = orNone rec.recommendation
    ∧ orNone last.currency = orNone rec.currency
    ∧ numEq last.priceConsensus rec.priceConsensus
    ∧ numEq last.minTarget rec.minTarget
    ∧ numEq last.maxTarget rec.maxTarget

/-- Rounding of `x` to 8 decimal places, as performed by the Python format
`f"{x:.8f}"` inside `_fingerprint` (half-way cases are immaterial to the
claims; `round` is used). -/
def rnd8 (x : ℚ) : ℤ := round (x * 100000000)

/-- Canonical characters of one formatted price inside the fingerprint.
This is an equality-preserving re-encoding of the Python string
`f"{x:.8f}"`: two prices produce the same characters exactly when they
round to the same 8-decimal value, the encoding is never empty, and it
uses no separator bar. The exact glyphs are irrelevant because the code
only ever hashes and compares these strings. -/
def numChars (x : ℚ) : List Char :=
  if rnd8 x < 0 then 'n' :: '-' :: List.replicate (rnd8 x).natAbs 'x'
  else 'n' :: List.replicate (rnd8 x).natAbs 'x'

/-- One price part of `_fingerprint`: `""` for `None`, else the formatted
number. -/
def numPart (a : Option ℚ) : List Char :=
  match a with
  | none => []
  | some x => numChars x

/-- One string part of `_fingerprint`: `str(x or "")`. -/
def strPart (o : Option String) : List Char := (orEmpty o).data

/-- The six canonicalized parts of `data_forecasts._fingerprint`, in source
order. -/
def fingerParts (r : ConsensusFields) : List (List Char) :=
  [strPart r.ticker, strPart r.recommendation, strPart r.currency,
   numPart r.priceConsensus, numPart r.minTarget, numPart r.maxTarget]

/-- Python `"|".join(parts)`. -/
def joinBar : List (List Char) → List Char
  | [] => []
  | [p] => p
  | p :: ps => p ++ '|' :: joinBar ps

/-- Embedding of `data_forecasts._fingerprint`: the canonical string whose
sha256 digest the code stores and compares (digest equality is modelled as
equality of this string). -/
def fingerprint (r : ConsensusFields) : List Char := joinBar (fingerParts r)

/-- Byte-wise lexicographic strict comparison of two character lists,
mirroring how sqlite orders TEXT columns (ISO dates and timestamps compare
chronologically under it). -/
def strLtChars : List Char → List Char → Bool
  | [], [] => false
  | [], _ :: _ => true
  | _ :: _, [] => false
  | a :: as, b :: bs =>
      if a.toNat < b.toNat then true
      else if b.toNat < a.toNat then false
      else strLtChars as bs

/-- TEXT-column strict order used for `ORDER BY ... DESC` date columns. -/
def dateLt (a b : String) : Bool := strLtChars a.data b.data

/-- TEXT-column non-strict order. -/
def dateLe (a b : String) : Bool := !dateLt b a

/-- One stored row of the `consensus_forecasts` table of
`GorbunovInvestInstruments.db` (`id` is the sqlite rowid). -/
structure ConsRow where
  id : ℕ
  uid : String
  fields : ConsensusFields
  recommendationDate : String
  snapshotHash : Option (List Char)
  deriving DecidableEq, Repr

/-- Row choice of `SELECT ... WHERE uid=? ORDER BY recommendationDate DESC
LIMIT 1`: the row with the maximal date, ties resolved towards the largest
rowid (the most recently inserted row). -/
def latestCons (rows : List ConsRow) : Option ConsRow :=
  rows.foldl
    (fun acc r =>
      match acc with
      | none => some r
      | some a =>
          if dateLt a.recommendationDate r.recommendationDate
              ∨ (a.recommendationDate = r.recommendationDate ∧ a.id < r.id)
          then some r else acc)
    none

/-- Comparison of the incoming record against the (optional) latest stored
row, as in `_same_record` (`False` when no row exists). -/
def sameRecord (last : Option ConsRow) (rec : ConsensusFields) : Bool :=
  match last with
  | none => false
  | some r => sameFields r.fields rec

/-- Outcome reported by the consensus save operation. -/
inductive AddOutcome where
  | skipHash
  | skipFields
  | inserted
  deriving DecidableEq, Repr

/-- Fast-path condition of `AddConsensusForecasts` (lines 200-209): the
latest row exists, its `snapshotHash` is truthy (non-null, non-empty) and it
equals the fingerprint of the incoming record. -/
def hashMatches (last : Option ConsRow) (fp : List Char) : Bool :=
  match last with
  | none => false
  | some r =>
      match r.snapshotHash with
      | none => false
      | some h => h ≠ [] ∧ h = fp

/-- Embedding of `data_forecasts.AddConsensusForecasts` (lines 116-220) for a
record carrying uid `uid`: fetch the latest row for the uid; skip when the
stored `snapshotHash` is truthy and equal to the fingerprint of the incoming
record; skip when `_same_record` holds; otherwise insert a new row stamped
with the current processing date `now` and rowid `freshId`. `table` is the
full `consensus_forecasts` table. -/
def AddConsensusForecasts (table : List ConsRow) (uid : String)
    (rec : ConsensusFields) (now : String) (freshId : ℕ) :
    List ConsRow × AddOutcome :=
  let last := latestCons (table.filter (fun r => r.uid = uid))
  let fp := fingerprint rec
  if hashMatches last fp then (table, AddOutcome.skipHash)
  else if sameRecord last rec then (table, AddOutcome.skipFields)
  else (⟨freshId, uid, rec, now, some fp⟩ :: table, AddOutcome.inserted)

/-- Equality of two consensus field-tuples under the rules asserted by the
claims: strings compared exactly (two nulls equal, one-null-one-value
different, including the empty string as a value), floats with absolute
tolerance `1e-6`, two nulls equal. This follows the claim wording, not the
source; it exists to be compared against the source comparison. -/
def claimFieldEq (a b : ConsensusFields) : Bool :=
  a.ticker = b.ticker
    ∧ a.recommendation = b.recommendation
    ∧ a.currency = b.currency
    ∧ numEq a.priceConsensus b.priceConsensus
    ∧ numEq a.minTarget b.minTarget
    ∧ numEq a.maxTarget b.maxTarget

/-- Fields whose canonical string parts contain no separator bar; under this
condition the canonicalized concatenation of `_fingerprint` is injective.
Price parts never contain a bar, so only the three string fields matter. -/
def sepFree (r : ConsensusFields) : Prop :=
  '|' ∉ strPart r.ticker ∧ '|' ∉ strPart r.recommendation ∧ '|' ∉ strPart r.currency

instance (r : ConsensusFields) : Decidable (sepFree r) := by
  unfold sepFree; infer_instance

/-- Invariant of the `consensus_forecasts` table: every stored `snapshotHash`
is either NULL (pre-migration row) or the fingerprint of the row's own
fields, as established by both the insert path and the migration backfill. -/
def hashInv (table : List ConsRow) : Prop :=
  ∀ r ∈ table, r.snapshotHash = some (fingerprint r.fields) ∨ r.snapshotHash = none

instance (table : List ConsRow) : Decidable (hashInv table) := by
  unfold hashInv; infer_instance

/-- Digit test on a character (ASCII). -/
def isDigit (c : Char) : Bool := 48 ≤ c.toNat ∧ c.toNat ≤ 57

/-- Numeric value of an ASCII digit. -/
def digitVal (c : Char) : ℕ := c.toNat - 48

/-- Gregorian leap-year rule. -/
def isLeap (y : ℕ) : Bool := (y % 4 = 0 ∧ y % 100 ≠ 0) ∨ y % 400 = 0

/-- Number of days in a month. -/
def daysInMonth (y m : ℕ) : ℕ :=
  if m = 2 then (if isLeap y then 29 else 28)
  else if m = 4 ∨ m = 6 ∨ m = 9 ∨ m = 11 then 30
  else 31

/-- Calendar validity as enforced by `datetime`: years 1-9999, months 1-12,
days within the month. -/
def isValidDate (y m d : ℕ) : Bool :=
  1 ≤ y ∧ y ≤ 9999 ∧ 1 ≤ m ∧ m ≤ 12 ∧ 1 ≤ d ∧ d ≤ daysInMonth y m

/-- Day count of a civil date from the era base 0000-03-01 (the standard
civil-from-days algorithm); only relative order and distances matter to the
claims. -/
def daysFromCivil (y m d : ℕ) : ℕ :=
  let y2 := if m ≤ 2 then y - 1 else y
  let era := y2 / 400
  let yoe := y2 % 400
  let doy := (153 * (if 2 < m then m - 3 else m + 9) + 2) / 5 + (d - 1)
  let doe := yoe * 365 + yoe / 4 - yoe / 100 + doy
  era * 146097 + doe

/-- Parse two ASCII digits. -/
def twoDigits (a b : Char) : Option ℕ :=
  if isDigit a ∧ isDigit b then some (10 * digitVal a + digitVal b) else none

/-- Parse a UTC offset suffix of the form `+HH:MM` or `-HH:MM` (empty means
no offset), returning the offset in seconds. -/
def parseOffset : List Char → Option ℤ
  | [] => some 0
  | s :: h1 :: h2 :: ':' :: m1 :: m2 :: [] =>
      if s = '+' ∨ s = '-' then
        match twoDigits h1 h2, twoDigits m1 m2 with
        | some hh, some mm =>
            if hh < 24 ∧ mm < 60 then
              let v : ℤ := (hh * 3600 + mm * 60 : ℕ)
              some (if s = '-' then -v else v)
            else none
        | _, _ => none
      else none
  | _ => none

/-- Parse a time-of-day with optional seconds and optional UTC offset
(`HH:MM`, `HH:MM:SS`, each optionally followed by `±HH:MM`), returning
seconds into the day and the offset in seconds. -/
def parseTime (l : List Char) : Option (ℕ × ℤ) :=
  match l with
  | h1 :: h2 :: ':' :: m1 :: m2 :: rest =>
      match twoDigits h1 h2, twoDigits m1 m2 with
      | some hh, some mm =>
          if hh < 24 ∧ mm < 60 then
            match rest with
            | ':' :: s1 :: s2 :: rest2 =>
                match twoDigits s1 s2 with
                | some ss =>
                    if ss < 60 then
                      (parseOffset rest2).map
                        (fun off => (hh * 3600 + mm * 60 + ss, off))
                    else none
                | none => none
            | _ =>
                (parseOffset rest).map (fun off => (hh * 3600 + mm * 60, off))
          else none
      | _, _ => none
  | _ => none

/-- Embedding of `datetime.fromisoformat` on the shapes this system stores:
a bare ISO date `YYYY-MM-DD`, optionally followed by `T` or a space and
a time `HH:MM[:SS]` with an optional `±HH:MM` offset (fractional seconds
and exotic ISO variants are outside the model). Returns the UTC instant as
seconds since the era base; a naive value is treated as UTC exactly as the
calling code does. -/
def parseIso (l : List Char) : Option ℤ :=
  match l with
  | y1 :: y2 :: y3 :: y4 :: '-' :: m1 :: m2 :: '-' :: d1 :: d2 :: rest =>
      if isDigit y1 ∧ isDigit y2 ∧ isDigit y3 ∧ isDigit y4 then
        let y := 1000 * digitVal y1 + 100 * digitVal y2 + 10 * digitVal y3
          + digitVal y4
        match twoDigits m1 m2, twoDigits d1 d2 with
        | some m, some d =>
            if isValidDate y m d then
              let base : ℤ := (daysFromCivil y m d : ℕ) * 86400
              match rest with
              | [] => some base
              | c :: rest2 =>
                  if c = 'T' ∨ c = ' ' then
                    (parseTime rest2).map
                      (fun p => base + (p.1 : ℤ) - p.2)
                  else none
            else none
        | _, _ => none
      else none
  | _ => none

/-- Python `s.rstrip("Z")`: drop every trailing `Z`. -/
def stripZ (l : List Char) : List Char :=
  (l.reverse.dropWhile (fun c => c = 'Z')).reverse

/-- Embedding of `data_forecasts._is_older` (lines 403-416): falsy date
strings are not old; otherwise strip trailing `Z`s, parse with
`fromisoformat` (naive values assumed UTC) and compare strictly against the
cutoff; any parse failure means "not old". -/
def isOlder (dtStr : Option String) (cutoff : ℤ) : Bool :=
  match dtStr with
  | none => false
  | some s =>
      if s = "" then false
      else
        match parseIso (stripZ s.data) with
        | none => false
        | some t => t < cutoff

/-- Embedding of `invest_core.normalization.normalize_date`: a trimmed
string of length at least 10 whose first 10 characters form a valid
`YYYY-MM-DD` date is truncated to them; anything else is passed through
trimmed. The model takes the already-trimmed string (the claims never
exercise surrounding whitespace). -/
def normalizeDate (s : String) : String :=
  if s.length ≥ 10 ∧ (parseIso (s.data.take 10)).isSome then
    ⟨s.data.take 10⟩
  else s

/-- One row of the Gorbunov `consensus_targets` table (with the unique
index on `(uid, company, recommendationDate)` from `main.py`). -/
structure TgtRow where
  id : ℕ
  uid : String
  ticker : Option String
  company : Option String
  recommendation : Option String
  recommendationDate : Option String
  currency : Option String
  targetPrice : Option ℚ
  showName : Option String
  deriving DecidableEq, Repr

/-- One incoming analyst target as read from the API payload (prices after
`_parse_money` / `to_number` normalization). -/
structure TargetIn where
  uid : Option String
  ticker : Option String
  company : Option String
  recommendation : Option String
  recommendationDate : Option String
  currency : Option String
  targetPrice : Option ℚ
  showName : Option String
  deriving DecidableEq, Repr

/-- Embedding of `data_forecasts.AddConsensusTargets` (lines 223-252):
records missing a truthy uid, company or date are skipped; the rest are
written with `INSERT OR IGNORE`, which silently drops any record whose
`(uid, company, recommendationDate)` key already exists. Returns the new
table and the number of inserted rows; `baseId` seeds fresh rowids. -/
def GAddConsensusTargets (table : List TgtRow) (targets : List TargetIn)
    (baseId : ℕ) : List TgtRow × ℕ :=
  targets.foldl
    (fun st t =>
      match orNone t.uid, orNone t.company, orNone t.recommendationDate with
      | some u, some c, some d =>
          if st.1.any (fun r => r.uid = u ∧ r.company = some c
              ∧ r.recommendationDate = some d) then st
          else
            (st.1 ++ [⟨baseId + st.2, u, t.ticker, some c, t.recommendation,
              some d, t.currency, t.targetPrice, t.showName⟩], st.2 + 1)
      | _, _, _ => st)
    (table, 0)

/-- One row of the invest_core `consensus_targets` table. -/
structure ITgtRow where
  uid : String
  ticker : Option String
  company : Option String
  recommendation : Option String
  recommendationDate : String
  currency : Option String
  targetPrice : Option ℚ
  showName : Option String
  deriving DecidableEq, Repr

/-- Incoming arguments of `invest_core.forecasts.AddConsensusTargets`
(`targetPrice` after `to_number`). -/
structure ITargetIn where
  uid : String
  ticker : Option String
  company : Option String
  recommendation : Option String
  recommendationDate : String
  currency : Option String
  targetPrice : Option ℚ
  showName : Option String
  deriving DecidableEq, Repr

/-- SQL equality on a nullable column: a NULL on either side never matches. -/
def sqlEq (a b : Option String) : Bool :=
  match a, b with
  | some x, some y => x = y
  | _, _ => false

/-- Key lookup of the upsert: `WHERE uid=? AND recommendationDate=? AND
company=?` under SQL null semantics (a NULL company never matches). -/
def tgtKeyMatch (rec : ITargetIn) (r : ITgtRow) : Bool :=
  r.uid = rec.uid ∧ r.recommendationDate = normalizeDate rec.recommendationDate
    ∧ sqlEq r.company rec.company

/-- Status reported by the invest_core target upsert. -/
inductive TStatus where
  | dup
  | updated
  | inserted
  deriving DecidableEq, Repr

/-- Non-key field update performed by the upsert's UPDATE branch. -/
def tgtUpdate (rec : ITargetIn) (r : ITgtRow) : ITgtRow :=
  ⟨r.uid, rec.ticker, r.company, rec.recommendation, r.recommendationDate,
   rec.currency, rec.targetPrice, rec.showName⟩

/-- The row materialized by the upsert's INSERT branch (all fields of the
normalized `TargetRecord`). -/
def mkTgtRow (rec : ITargetIn) : ITgtRow :=
  ⟨rec.uid, rec.ticker, rec.company, rec.recommendation,
   normalizeDate rec.recommendationDate, rec.currency, rec.targetPrice,
   rec.showName⟩

/-- Embedding of `invest_core.forecasts.AddConsensusTargets` (lines
274-323): normalize the date, look the key up; if found and every remaining
field agrees report `dup`; if found and something differs update the row in
place and report `updated`; otherwise insert and report `inserted`. -/
def IAddConsensusTargets (table : List ITgtRow) (rec : ITargetIn) :
    List ITgtRow × TStatus :=
  match table.find? (tgtKeyMatch rec) with
  | some r =>
      if r.ticker = rec.ticker ∧ r.recommendation = rec.recommendation
          ∧ r.currency = rec.currency ∧ r.targetPrice = rec.targetPrice
          ∧ r.showName = rec.showName then
        (table, TStatus.dup)
      else
        (table.map (fun x => if tgtKeyMatch rec x then tgtUpdate rec x else x),
         TStatus.updated)
  | none => (table ++ [mkTgtRow rec], TStatus.inserted)

/-- Number of rows matching the upsert key of `rec`. -/
def tgtKeyCount (table : List ITgtRow) (rec : ITargetIn) : ℕ :=
  (table.filter (tgtKeyMatch rec)).length

/-- Sort order of `ORDER BY <key> DESC, id DESC` as a non-strict total
relation: `a` precedes `b` when its key is larger, ties resolved by larger
rowid. `ltk` is the strict key order, `idf` the rowid. -/
def descOrd {α : Type} (ltk : α → α → Bool) (idf : α → ℕ) (a b : α) : Bool :=
  if ltk b a then true
  else if ltk a b then false
  else idf b ≤ idf a

/-- Propositional form of `descOrd` for use with `List.insertionSort`. -/
def descOrdP {α : Type} (ltk : α → α → Bool) (idf : α → ℕ) (a b : α) : Prop :=
  descOrd ltk idf a b = true

instance {α : Type} (ltk : α → α → Bool) (idf : α → ℕ) :
    DecidableRel (descOrdP ltk idf) := fun a b => by
  unfold descOrdP; infer_instance

/-- TEXT order extended to a nullable column: sqlite sorts NULL below every
value. -/
def optDateLt (a b : Option String) : Bool :=
  match a, b with
  | none, none => false
  | none, some _ => true
  | some _, none => false
  | some x, some y => dateLt x y

/-- Strict date order of `consensus_forecasts` rows. -/
def consLt (a b : ConsRow) : Bool :=
  dateLt a.recommendationDate b.recommendationDate

/-- Strict date order of `consensus_targets` rows (nullable dates). -/
def tgtLt (a b : TgtRow) : Bool :=
  optDateLt a.recommendationDate b.recommendationDate

/-- Count-cap phase of `PruneHistory` for one table, generically: for every
group key `k` (`g` returns `none` for rows that belong to no group, e.g. a
NULL company, which the SQL `WHERE` clauses can never select), keep exactly
the rows whose id appears among the first `n` of the group sorted by
`ORDER BY <key> DESC, id DESC`, and delete the rest of the group. -/
def keepTop {α κ : Type} [DecidableEq κ] (ltk : α → α → Bool) (idf : α → ℕ)
    (g : α → Option κ) (n : ℕ) (l : List α) : List α :=
  l.filter (fun r =>
    match g r with
    | none => true
    | some k => idf r ∈ ((List.insertionSort (descOrdP ltk idf)
        (l.filter (fun x => g x = some k))).take n).map idf)

/-- Count-cap phase of `data_forecasts.PruneHistory` (lines 357-384): at
most `maxC` most-recent consensus rows per uid, at most `maxT` most-recent
target rows per (uid, company) pair. -/
def pruneCount (cons : List ConsRow) (tgts : List TgtRow) (maxC maxT : ℕ) :
    List ConsRow × List TgtRow :=
  (keepTop consLt ConsRow.id (fun r => some r.uid) maxC cons,
   keepTop tgtLt TgtRow.id (fun r => r.company.map (fun c => (r.uid, c)))
     maxT tgts)

/-- Embedding of `data_forecasts.PruneHistory` (lines 353-400): run the
count cap for both tables, then, when a positive age threshold is
configured, delete every remaining row `_is_older` than
`now - max_age_days` (the returned deletion counters and logging are
omitted). `now` is the UTC instant in seconds. -/
def PruneHistory (cons : List ConsRow) (tgts : List TgtRow) (maxC maxT : ℕ)
    (maxAge : Option ℤ) (now : ℤ) : List ConsRow × List TgtRow :=
  let cp := pruneCount cons tgts maxC maxT
  match maxAge with
  | none => cp
  | some d =>
      if d ≤ 0 then cp
      else
        (cp.1.filter
          (fun r => !isOlder (some r.recommendationDate) (now - d * 86400)),
         cp.2.filter
          (fun r => !isOlder r.recommendationDate (now - d * 86400)))

/-- One row of the price-bar table keyed by (board, secid, trade date);
dates are day numbers (valid ISO dates order identically as TEXT and as
dates, and the window logic works on parsed `date` objects). The remaining
exchange columns play no role in the claims. -/
structure Bar where
  board : String
  secid : String
  tradedate : ℤ
  deriving DecidableEq, Repr

/-- `data_prices.DEFAULT_HORIZON_DAYS`. -/
def DEFAULT_HORIZON_DAYS : ℤ := 1100

/-- `SELECT MAX(TRADE_SESSION_DATE) ... WHERE SECID=? AND BOARDID=?`. -/
def maxTradeDate (table : List Bar) (board secid : String) : Option ℤ :=
  (table.filter (fun r => r.secid = secid ∧ r.board = board)).foldl
    (fun acc r =>
      match acc with
      | none => some r.tradedate
      | some m => if m < r.tradedate then some r.tradedate else acc)
    none

/-- Date-window computation of `data_prices.GetMoexHistory` (lines
211-246): the end date is the override or today; the start date is the
override, else the day after the latest stored bar, else
`today - DEFAULT_HORIZON_DAYS`; a start after the end means no fetch. -/
def getMoexWindow (today : ℤ) (drStart drEnd : Option ℤ)
    (lastStored : Option ℤ) : Option (ℤ × ℤ) :=
  let endDate := drEnd.getD today
  let startDate :=
    match drStart with
    | some s => s
    | none =>
        match lastStored with
        | some l => l + 1
        | none => today - DEFAULT_HORIZON_DAYS
  if endDate < startDate then none else some (startDate, endDate)

/-- `data_prices._insert_row_if_new`: insert unless the (board, secid,
trade date) key already exists; returns 1 when a row was inserted. -/
def insertBarIfNew (table : List Bar) (b : Bar) : List Bar × ℕ :=
  if table.any (fun r => r.board = b.board ∧ r.secid = b.secid
      ∧ r.tradedate = b.tradedate) then (table, 0)
  else (table ++ [b], 1)

/-- Embedding of `data_prices.GetMoexHistory` (lines 206-308): compute the
window; when empty return immediately with zero inserted; otherwise insert
each fetched row if absent. `rows` stands for the bars the paginated API
returns for the requested window. -/
def GetMoexHistory (table : List Bar) (board secid : String) (today : ℤ)
    (drStart drEnd : Option ℤ) (rows : List Bar) : List Bar × ℕ :=
  match getMoexWindow today drStart drEnd (maxTradeDate table board secid) with
  | none => (table, 0)
  | some _ =>
      rows.foldl
        (fun st b =>
          let r := insertBarIfNew st.1 b
          (r.1, st.2 + r.2))
        (table, 0)

/-- Window computation of `data_prices.load_all_perspective` (lines
361-371), with a configurable horizon: with stored bars fetch from the day
after the newest one when that is not after today, otherwise nothing; with
no bars fetch the full horizon ending today. -/
def loadAllWindow (today horizonDays : ℤ) (lastStored : Option ℤ) :
    Option (ℤ × ℤ) :=
  match lastStored with
  | some m => if m + 1 ≤ today then some (m + 1, today) else none
  | none => some (today - horizonDays, today)

/-- A nullable SQL scalar that may hold a number or text. -/
inductive SqlVal where
  | null
  | num (q : ℚ)
  | text (s : String)
  deriving DecidableEq, Repr

/-- Fold a digit run into its value. -/
def digitsVal (l : List Char) : ℕ :=
  l.foldl (fun a c => 10 * a + digitVal c) 0

/-- Parse an optionally signed all-digit run (exponent of a float
literal). -/
def expVal : List Char → Option ℤ
  | '-' :: r =>
      if r ≠ [] ∧ r.all isDigit then some (-(digitsVal r : ℤ)) else none
  | '+' :: r =>
      if r ≠ [] ∧ r.all isDigit then some (digitsVal r : ℤ) else none
  | r => if r ≠ [] ∧ r.all isDigit then some (digitsVal r : ℤ) else none

/-- Embedding of Python `float(...)` on decimal literals: optional
surrounding spaces, optional sign, digits with an optional fractional part
(at least one digit overall), and an optional `e`/`E` exponent. The exotic
accepted spellings (`inf`, `nan`, underscore separators) are outside the
model; they do not occur as stored prices. -/
def floatOfChars (l0 : List Char) : Option ℚ :=
  let l1 := ((l0.dropWhile (fun c => c = ' ')).reverse.dropWhile
    (fun c => c = ' ')).reverse
  let sign : ℚ := match l1 with
    | '-' :: _ => -1
    | _ => 1
  let l2 := match l1 with
    | '-' :: r => r
    | '+' :: r => r
    | _ => l1
  let intPart := l2.takeWhile isDigit
  let rest2 := l2.dropWhile isDigit
  let fracPart := match rest2 with
    | '.' :: r => r.takeWhile isDigit
    | _ => []
  let rest3 := match rest2 with
    | '.' :: r => r.dropWhile isDigit
    | _ => rest2
  if intPart = [] ∧ fracPart = [] then none
  else
    let mantissa : ℚ := sign * ((digitsVal intPart : ℚ)
      + (digitsVal fracPart : ℚ) / 10 ^ fracPart.length)
    match rest3 with
    | [] => some mantissa
    | c :: r =>
        if c = 'e' ∨ c = 'E' then
          (expVal r).map (fun e => mantissa * (10 : ℚ) ^ e)
        else none

/-- `invest_core.potentials.MAX_PRICE`. -/
def MAX_PRICE : ℚ := 1000000

/-- The numeric filter of `_valid_price`: non-positive and larger-than-cap
prices are anomalies. -/
def priceFilter (q : ℚ) : Option ℚ :=
  if q ≤ 0 then none else if MAX_PRICE < q then none else some q

/-- Embedding of `invest_core.potentials._valid_price` (lines 33-48):
NULL stays absent; numbers are range-filtered; text is parsed as a float
after replacing commas with dots, unparseable text is absent. -/
def validPrice : SqlVal → Option ℚ
  | SqlVal.null => none
  | SqlVal.num q => priceFilter q
  | SqlVal.text s =>
      match floatOfChars (s.data.map (fun c => if c = ',' then '.' else c)) with
      | none => none
      | some q => priceFilter q

/-- The claim-side anomaly predicate: a present stored value that is
non-numeric, non-positive, or above `MAX_PRICE`. -/
def anomalous : SqlVal → Bool
  | SqlVal.null => false
  | SqlVal.num q => q ≤ 0 ∨ MAX_PRICE < q
  | SqlVal.text s =>
      match floatOfChars (s.data.map (fun c => if c = ',' then '.' else c)) with
      | none => true
      | some q => q ≤ 0 ∨ MAX_PRICE < q

/-- One row of `moex_shares_history` as read by the potential calculator. -/
structure CloseRow where
  secid : String
  tradedate : String
  close : SqlVal
  deriving DecidableEq, Repr

/-- One row of `consensus_forecasts` as read by the potential calculator. -/
structure PConsRow where
  uid : String
  recommendationDate : String
  priceConsensus : SqlVal
  deriving DecidableEq, Repr

/-- One row of `shares_potentials`. -/
structure PotRow where
  uid : String
  secid : String
  ticker : Option String
  computedAt : String
  prevClose : Option ℚ
  consensusPrice : Option ℚ
  pricePotentialRel : Option ℚ
  deriving DecidableEq, Repr

/-- `ORDER BY TRADEDATE DESC LIMIT 1` for one secid. -/
def latestClose (hist : List CloseRow) (secid : String) : Option CloseRow :=
  (hist.filter (fun r => r.secid = secid)).foldl
    (fun acc r =>
      match acc with
      | none => some r
      | some a => if dateLt a.tradedate r.tradedate then some r else acc)
    none

/-- `ORDER BY recommendationDate DESC LIMIT 1` for one uid. -/
def latestPCons (cons : List PConsRow) (uid : String) : Option PConsRow :=
  (cons.filter (fun r => r.uid = uid)).foldl
    (fun acc r =>
      match acc with
      | none => some r
      | some a =>
          if dateLt a.recommendationDate r.recommendationDate then some r
          else acc)
    none

/-- `ORDER BY computedAt DESC LIMIT 1` for one uid in `shares_potentials`. -/
def latestPot (pots : List PotRow) (uid : String) : Option PotRow :=
  (pots.filter (fun r => r.uid = uid)).foldl
    (fun acc r =>
      match acc with
      | none => some r
      | some a => if dateLt a.computedAt r.computedAt then some r else acc)
    none

/-- Embedding of `invest_core.potentials.GetLastCloseBySecId`: empty secid
gives nothing; otherwise the latest row's validated close and its date. -/
def GetLastCloseBySecId (hist : List CloseRow) (secid : String) :
    Option (Option ℚ × String) :=
  if secid = "" then none
  else (latestClose hist secid).map (fun r => (validPrice r.close, r.tradedate))

/-- Embedding of `invest_core.potentials.GetLastConsensusByUid`. -/
def GetLastConsensusByUid (cons : List PConsRow) (uid : String) :
    Option (Option ℚ × String) :=
  if uid = "" then none
  else (latestPCons cons uid).map
    (fun r => (validPrice r.priceConsensus, r.recommendationDate))

/-- `prev_close` as computed in `CalculateSharesPotential`. -/
def lastPrevClose (hist : List CloseRow) (secid : String) : Option ℚ :=
  (GetLastCloseBySecId hist secid).bind (fun p => p.1)

/-- `consensus_price` as computed in `CalculateSharesPotential`. -/
def lastConsPrice (cons : List PConsRow) (uid : String) : Option ℚ :=
  (GetLastConsensusByUid cons uid).bind (fun p => p.1)

/-- The relative potential `(consensus - prevClose) / prevClose`, computed
only when both inputs are present and truthy. -/
def calcRel (hist : List CloseRow) (cons : List PConsRow)
    (secid uid : String) : Option ℚ :=
  match lastPrevClose hist secid, lastConsPrice cons uid with
  | some p, some c => if p ≠ 0 ∧ c ≠ 0 then some ((c - p) / p) else none
  | _, _ => none

/-- The stored relative potential of a uid's most recent record. -/
def lastRelOf (pots : List PotRow) (uid : String) : Option ℚ :=
  (latestPot pots uid).bind (fun r => r.pricePotentialRel)

/-- The dedup test of `CalculateSharesPotential`: both relative potentials
present and strictly closer than `1e-9`. -/
def relUnchanged (lastRel rel : Option ℚ) : Bool :=
  match lastRel, rel with
  | some lr, some r => decide (|lr - r| < tol9)
  | _, _ => false

/-- Outcome record of `CalculateSharesPotential`. -/
structure CalcResult where
  rel : Option ℚ
  skipped : Bool
  unchanged : Bool
  deriving DecidableEq, Repr

/-- Embedding of `invest_core.potentials.CalculateSharesPotential` (lines
213-308): compute the relative potential from the latest validated close
and consensus; fetch the uid's most recent stored record; when both its
stored relative potential and the new one are present and differ by less
than `1e-9` (strictly) skip the write; when `skip_null` is set and the new
value is null skip the write; otherwise append a new timestamped row
(falling back to the alternative timestamp on a primary-key collision). -/
def CalculateSharesPotential (hist : List CloseRow) (cons : List PConsRow)
    (pots : List PotRow) (secid uid : String) (ticker : Option String)
    (nowTs altTs : String) (skipNull : Bool) : List PotRow × CalcResult :=
  let prevClose := lastPrevClose hist secid
  let consensusPrice := lastConsPrice cons uid
  let rel := calcRel hist cons secid uid
  if relUnchanged (lastRelOf pots uid) rel then (pots, ⟨rel, true, true⟩)
  else if skipNull ∧ rel = none then (pots, ⟨rel, true, false⟩)
  else
    let ts := if pots.any (fun r => r.uid = uid ∧ r.computedAt = nowTs)
      then altTs else nowTs
    (pots ++ [⟨uid, secid, ticker, ts, prevClose, consensusPrice, rel⟩],
     ⟨rel, false, false⟩)

/-- Calendar day of an ISO timestamp (its first ten characters). -/
def dayOf (s : String) : String := ⟨s.data.take 10⟩

/-- One row of the Gorbunov `instrument_potentials` table, keyed by
`(uid, computedDate)`. -/
structure IPotRow where
  uid : String
  ticker : Option String
  computedDate : String
  prevClose : Option ℚ
  consensusPrice : Option ℚ
  pricePotentialRel : Option ℚ
  isStale : Bool
  deriving DecidableEq, Repr

/-- One row of `moex_history_perspective_shares` as read by
`potentials._get_prev_close` (`date` is
`COALESCE(TRADE_SESSION_DATE, TRADEDATE)`). -/
structure GHistRow where
  secid : String
  date : String
  close : Option ℚ
  deriving DecidableEq, Repr

/-- Embedding of `potentials._get_prev_close`: latest non-null close for
the secid with its date. -/
def getPrevClose (hist : List GHistRow) (secid : String) :
    Option (ℚ × String) :=
  ((hist.filter (fun r => r.secid = secid ∧ r.close ≠ none)).foldl
    (fun acc r =>
      match acc with
      | none => some r
      | some a => if dateLt a.date r.date then some r else acc)
    none).bind
    (fun r => (r.close).map (fun c => (c, r.date)))

/-- `INSERT OR REPLACE` keyed by `(uid, computedDate)`: the conflicting row
is deleted and the new row appended. -/
def insertOrReplaceIPot (pots : List IPotRow) (row : IPotRow) :
    List IPotRow :=
  pots.filter (fun r => ¬(r.uid = row.uid ∧ r.computedDate = row.computedDate))
    ++ [row]

/-- The store step of `potentials.compute_all` (lines 92-174) for one
share: read the latest consensus and close, compute the potential and the
staleness flag, compare the inputs against the most recent stored record
with tolerance `1e-9` (both-null counts as unchanged), and write via
`INSERT OR REPLACE` exactly when there is no prior record, something
changed, or the force flag is set. -/
def computeAllStep (consT : List ConsRow) (hist : List GHistRow)
    (pots : List IPotRow) (uid : String) (ticker : Option String)
    (secid : Option String) (today : String) (now : ℤ) (staleDays : ℤ)
    (force : Bool) : List IPotRow :=
  let consRow := latestCons (consT.filter (fun r => r.uid = uid))
  let consensusPrice := consRow.bind (fun r => r.fields.priceConsensus)
  let recDate := consRow.map (fun r => r.recommendationDate)
  let pc := match orNone secid with
    | some s => getPrevClose hist s
    | none => none
  let potential := match consensusPrice, pc with
    | some c, some p => if 0 < p.1 then some ((c - p.1) / p.1) else none
    | _, _ => none
  let isStale := match recDate with
    | none => false
    | some rd =>
        if rd = "" then false
        else
          match parseIso (stripZ rd.data) with
          | none => false
          | some t => decide (staleDays < (now - t).fdiv 86400)
  let lastRow := (pots.filter (fun r => r.uid = uid)).foldl
    (fun acc r =>
      match acc with
      | none => some r
      | some a => if dateLt a.computedDate r.computedDate then some r else acc)
    none
  let lastPrev := lastRow.bind (fun r => r.prevClose)
  let lastCons := lastRow.bind (fun r => r.consensusPrice)
  let changedPrice := match lastPrev, pc with
    | some lp, some p => decide (tol9 < |lp - p.1|)
    | none, none => false
    | _, _ => true
  let changedForecast := match lastCons, consensusPrice with
    | some lc, some c => decide (tol9 < |lc - c|)
    | none, none => false
    | _, _ => true
  if lastRow.isNone || changedPrice || changedForecast || force then
    insertOrReplaceIPot pots
      ⟨uid, ticker, today, pc.map (fun p => p.1), consensusPrice, potential,
       isStale⟩
  else pots

/-- A consensus payload block as handed to `AddConsensusForecasts` by the
update loop (the block carries its own uid). -/
structure ConsensusMsg where
  uid : Option String
  fields : ConsensusFields
  deriving DecidableEq, Repr

/-- The falsy-consensus and missing-uid guards of `AddConsensusForecasts`
(lines 117-121) composed with the save itself. -/
def AddConsensusForecastsOpt (table : List ConsRow) (c : Option ConsensusMsg)
    (now : String) (freshId : ℕ) : List ConsRow :=
  match c with
  | none => table
  | some msg =>
      match orNone msg.uid with
      | none => table
      | some u => (AddConsensusForecasts table u msg.fields now freshId).1

/-- Database state threaded through the update loop (`nextId` models the
sqlite rowid counter). -/
structure SyncState where
  cons : List ConsRow
  tgts : List TgtRow
  nextId : ℕ
  deriving DecidableEq, Repr

/-- Counters reported by `UpdateConsensusForecasts`. -/
structure SyncStats where
  total : ℕ
  updated : ℕ
  empty : ℕ
  errors : ℕ
  deriving DecidableEq, Repr

/-- Per-instrument body of the update loop: save the consensus block and
the targets. -/
def processUid (st : SyncState) (c : Option ConsensusMsg)
    (ts : List TargetIn) (now : String) : SyncState :=
  let cons2 := AddConsensusForecastsOpt st.cons c now st.nextId
  let tg := GAddConsensusTargets st.tgts ts (st.nextId + 1)
  ⟨cons2, tg.1, st.nextId + 1 + ts.length⟩

/-- Truthiness of a fetch result. -/
def isOkB {ε α : Type} : Except ε α → Bool
  | Except.ok _ => true
  | Except.error _ => false

/-- One iteration of the `UpdateConsensusForecasts` loop (lines 306-316):
a throwing fetch is caught and counted; an empty payload is counted as
empty; otherwise both save operations run and the instrument is counted as
updated. -/
def syncStep (fetch : String → Except Unit (Option ConsensusMsg × List TargetIn))
    (now : String) (acc : SyncState × SyncStats) (u : String) :
    SyncState × SyncStats :=
  match fetch u with
  | Except.error _ =>
      (acc.1, ⟨acc.2.total, acc.2.updated, acc.2.empty, acc.2.errors + 1⟩)
  | Except.ok (c, ts) =>
      if c = none ∧ ts = [] then
        (acc.1, ⟨acc.2.total, acc.2.updated, acc.2.empty + 1, acc.2.errors⟩)
      else
        (processUid acc.1 c ts now,
         ⟨acc.2.total, acc.2.updated + 1, acc.2.empty, acc.2.errors⟩)

/-- Embedding of `data_forecasts.UpdateConsensusForecasts` (lines 289-320)
with the fetch function as a parameter: iterate over the instruments,
isolating per-instrument failures, and report the counters (the trailing
`PruneHistory` call does not affect the counters and is exercised
separately). -/
def UpdateConsensusForecasts (uids : List String)
    (fetch : String → Except Unit (Option ConsensusMsg × List TargetIn))
    (st0 : SyncState) (now : String) : SyncState × SyncStats :=
  uids.foldl (syncStep fetch now) (st0, ⟨uids.length, 0, 0, 0⟩)

/-- Instruments whose fetch throws. -/
def fetchErr (fetch : String → Except Unit (Option ConsensusMsg × List TargetIn))
    (u : String) : Bool :=
  !isOkB (fetch u)

/-- Instruments whose fetch succeeds but returns no data. -/
def fetchEmpty (fetch : String → Except Unit (Option ConsensusMsg × List TargetIn))
    (u : String) : Bool :=
  match fetch u with
  | Except.ok (c, ts) => c = none ∧ ts = []
  | Except.error _ => false

/-- Instruments whose fetch succeeds with data. -/
def fetchGood (fetch : String → Except Unit (Option ConsensusMsg × List TargetIn))
    (u : String) : Bool :=
  match fetch u with
  | Except.ok (c, ts) => ¬(c = none ∧ ts = [])
  | Except.error _ => false

lemma bar_not_mem_numChars (x : ℚ) : '|' ∉ numChars x := by
  intro h
  unfold numChars at h
  split at h
  · simp only [List.mem_cons] at h
    rcases h with h | h | h
    · exact absurd h (by decide)
    · exact absurd h (by decide)
    · exact absurd (List.eq_of_mem_replicate h) (by decide)
  · simp only [List.mem_cons] at h
    rcases h with h | h
    · exact absurd h (by decide)
    · exact absurd (List.eq_of_mem_replicate h) (by decide)

lemma bar_not_mem_numPart (a : Option ℚ) : '|' ∉ numPart a := by
  cases a with
  | none => simp [numPart]
  | some x => exact bar_not_mem_numChars x

lemma numChars_inj {x y : ℚ} (h : numChars x = numChars y) : rnd8 x = rnd8 y := by
  unfold numChars at h
  by_cases hx : rnd8 x < 0 <;> by_cases hy : rnd8 y < 0
  · rw [if_pos hx, if_pos hy] at h
    simp only [List.cons.injEq, true_and] at h
    have := congrArg List.length h
    simp only [List.length_replicate] at this
    omega
  · rw [if_pos hx, if_neg hy] at h
    simp only [List.cons.injEq, true_and] at h
    exfalso
    have hm : '-' ∈ List.replicate (rnd8 y).natAbs 'x' := by
      rw [← h]; exact List.mem_cons_self _ _
    exact absurd (List.eq_of_mem_replicate hm) (by decide)
  · rw [if_neg hx, if_pos hy] at h
    simp only [List.cons.injEq, true_and] at h
    exfalso
    have hm : '-' ∈ List.replicate (rnd8 x).natAbs 'x' := by
      rw [h]; exact List.mem_cons_self _ _
    exact absurd (List.eq_of_mem_replicate hm) (by decide)
  · rw [if_neg hx, if_neg hy] at h
    simp only [List.cons.injEq, true_and] at h
    have := congrArg List.length h
    simp only [List.length_replicate] at this
    omega

lemma rnd8_eq_close {x y : ℚ} (h : rnd8 x = rnd8 y) : |x - y| ≤ tol6 := by
  unfold rnd8 at h
  have hx : |x * 100000000 - round (x * 100000000)| ≤ 1 / 2 := abs_sub_round _
  have hy : |y * 100000000 - round (y * 100000000)| ≤ 1 / 2 := abs_sub_round _
  rw [h] at hx
  have hd : |x * 100000000 - y * 100000000| ≤ 1 := by
    calc |x * 100000000 - y * 100000000|
        = |(x * 100000000 - round (y * 100000000))
            - (y * 100000000 - round (y * 100000000))| := by ring_nf
      _ ≤ |x * 100000000 - round (y * 100000000)|
            + |y * 100000000 - round (y * 100000000)| := abs_sub _ _
      _ ≤ 1 / 2 + 1 / 2 := add_le_add hx hy
      _ = 1 := by norm_num
  have hmul : |x - y| * 100000000 ≤ 1 := by
    have : |x - y| * 100000000 = |x * 100000000 - y * 100000000| := by
      rw [show x * 100000000 - y * 100000000 = (x - y) * 100000000 by ring,
        abs_mul]
      norm_num
    linarith [this ▸ hd]
  unfold tol6
  nlinarith

lemma numPart_numEq {a b : Option ℚ} (h : numPart a = numPart b) :
    numEq a b = true := by
  cases a with
  | none =>
      cases b with
      | none => rfl
      | some y =>
          exfalso
          simp only [numPart] at h
          unfold numChars at h
          split at h <;> simp at h
  | some x =>
      cases b with
      | none =>
          exfalso
          simp only [numPart] at h
          unfold numChars at h
          split at h <;> simp at h
      | some y =>
          simp only [numPart] at h
          simp only [numEq, decide_eq_true_eq]
          exact rnd8_eq_close (numChars_inj h)

lemma strPart_orEmpty {a b : Option String} (h : strPart a = strPart b) :
    orEmpty a = orEmpty b := by
  unfold strPart at h
  exact String.ext h

lemma orEmpty_orNone {a b : Option String} (h : orEmpty a = orEmpty b) :
    orNone a = orNone b := by
  cases a with
  | none =>
      cases b with
      | none => rfl
      | some s =>
          simp only [orEmpty, Option.getD] at h
          simp [orNone, ← h]
  | some t =>
      cases b with
      | none =>
          simp only [orEmpty, Option.getD] at h
          simp [orNone, h]
      | some s =>
          simp only [orEmpty, Option.getD] at h
          simp [orNone, h]

lemma append_bar_inj : ∀ {a b x y : List Char}, '|' ∉ a → '|' ∉ b →
    a ++ '|' :: x = b ++ '|' :: y → a = b ∧ x = y := by
  intro a
  induction a with
  | nil =>
      intro b x y _ hb h
      cases b with
      | nil => simpa using h
      | cons d bs =>
          exfalso
          simp only [List.nil_append, List.cons_append, List.cons.injEq] at h
          exact hb (h.1 ▸ List.mem_cons_self d bs)
  | cons c as ih =>
      intro b x y ha hb h
      cases b with
      | nil =>
          exfalso
          simp only [List.cons_append, List.nil_append, List.cons.injEq] at h
          exact ha (h.1.symm ▸ List.mem_cons_self c as)
      | cons d bs =>
          simp only [List.cons_append, List.cons.injEq] at h
          obtain ⟨hcd, htail⟩ := h
          have has : '|' ∉ as := fun hm => ha (List.mem_cons_of_mem c hm)
          have hbs : '|' ∉ bs := fun hm => hb (List.mem_cons_of_mem d hm)
          obtain ⟨h1, h2⟩ := ih has hbs htail
          exact ⟨by rw [hcd, h1], h2⟩

/-- Core agreement lemma behind the fingerprint fast path: when the string
fields contain no separator bar, equal fingerprints imply that the direct
field comparison `_same_record` also deems the records unchanged. -/
lemma fingerprint_eq_sameFields {a b : ConsensusFields}
    (ha : sepFree a) (hb : sepFree b) (h : fingerprint a = fingerprint b) :
    sameFields a b = true := by
  obtain ⟨ha1, ha2, ha3⟩ := ha
  obtain ⟨hb1, hb2, hb3⟩ := hb
  have h0 : strPart a.ticker ++ '|' :: (strPart a.recommendation ++ '|' ::
      (strPart a.currency ++ '|' :: (numPart a.priceConsensus ++ '|' ::
      (numPart a.minTarget ++ '|' :: numPart a.maxTarget))))
      = strPart b.ticker ++ '|' :: (strPart b.recommendation ++ '|' ::
      (strPart b.currency ++ '|' :: (numPart b.priceConsensus ++ '|' ::
      (numPart b.minTarget ++ '|' :: numPart b.maxTarget)))) := h
  obtain ⟨e1, h1⟩ := append_bar_inj ha1 hb1 h0
  obtain ⟨e2, h2⟩ := append_bar_inj ha2 hb2 h1
  obtain ⟨e3, h3⟩ := append_bar_inj ha3 hb3 h2
  obtain ⟨e4, h4⟩ := append_bar_inj (bar_not_mem_numPart _) (bar_not_mem_numPart _) h3
  obtain ⟨e5, e6⟩ := append_bar_inj (bar_not_mem_numPart _) (bar_not_mem_numPart _) h4
  have q1 := strPart_orEmpty e1
  have q2 := orEmpty_orNone (strPart_orEmpty e2)
  have q3 := orEmpty_orNone (strPart_orEmpty e3)
  have q4 := numPart_numEq e4
  have q5 := numPart_numEq e5
  have q6 := numPart_numEq e6
  simp only [sameFields, decide_eq_true_eq]
  exact ⟨q1, q2, q3, q4, q5, q6⟩

lemma fingerprint_ne_nil (r : ConsensusFields) : fingerprint r ≠ [] := by
  have : fingerprint r = strPart r.ticker ++ '|' :: (strPart r.recommendation
      ++ '|' :: (strPart r.currency ++ '|' :: (numPart r.priceConsensus
      ++ '|' :: (numPart r.minTarget ++ '|' :: numPart r.maxTarget)))) := rfl
  rw [this]
  intro h
  exact List.append_ne_nil_of_right_ne_nil _ (List.cons_ne_nil _ _) h

lemma latestCons_go_mem : ∀ (l : List ConsRow) (a r : ConsRow),
    l.foldl (fun acc r =>
      match acc with
      | none => some r
      | some a =>
          if dateLt a.recommendationDate r.recommendationDate
              ∨ (a.recommendationDate = r.recommendationDate ∧ a.id < r.id)
          then some r else acc) (some a) = some r → r = a ∨ r ∈ l := by
  intro l
  induction l with
  | nil => intro a r h; simp at h; exact Or.inl h.symm
  | cons x xs ih =>
      intro a r h
      simp only [List.foldl_cons] at h
      by_cases hc : dateLt a.recommendationDate x.recommendationDate
          ∨ (a.recommendationDate = x.recommendationDate ∧ a.id < x.id)
      · rw [if_pos hc] at h
        rcases ih x r h with h1 | h1
        · exact Or.inr (h1 ▸ List.mem_cons_self x xs)
        · exact Or.inr (List.mem_cons_of_mem x h1)
      · rw [if_neg hc] at h
        rcases ih a r h with h1 | h1
        · exact Or.inl h1
        · exact Or.inr (List.mem_cons_of_mem x h1)

lemma latestCons_mem {l : List ConsRow} {r : ConsRow}
    (h : latestCons l = some r) : r ∈ l := by
  unfold latestCons at h
  cases l with
  | nil => simp at h
  | cons x xs =>
      simp only [List.foldl_cons] at h
      rcases latestCons_go_mem xs x r h with h1 | h1
      · exact h1 ▸ List.mem_cons_self x xs
      · exact List.mem_cons_of_mem x h1

lemma latestCons_go_max : ∀ (l : List ConsRow) (a : ConsRow),
    (∀ r ∈ l, ¬(dateLt a.recommendationDate r.recommendationDate
        ∨ (a.recommendationDate = r.recommendationDate ∧ a.id < r.id))) →
    l.foldl (fun acc r =>
      match acc with
      | none => some r
      | some a =>
          if dateLt a.recommendationDate r.recommendationDate
              ∨ (a.recommendationDate = r.recommendationDate ∧ a.id < r.id)
          then some r else acc) (some a) = some a := by
  intro l
  induction l with
  | nil => intro a _; rfl
  | cons x xs ih =>
      intro a h
      simp only [List.foldl_cons]
      rw [if_neg (h x (List.mem_cons_self x xs))]
      exact ih a (fun r hr => h r (List.mem_cons_of_mem x hr))

/-- The latest-row query returns a freshly inserted row whose date is at
least every stored date and whose rowid exceeds every stored rowid. -/
lemma latestCons_cons_max {l : List ConsRow} {x : ConsRow}
    (h : ∀ r ∈ l, dateLe r.recommendationDate x.recommendationDate = true
        ∧ r.id < x.id) :
    latestCons (x :: l) = some x := by
  unfold latestCons
  simp only [List.foldl_cons]
  apply latestCons_go_max
  intro r hr
  obtain ⟨h1, h2⟩ := h r hr
  intro hc
  rcases hc with hc | ⟨hc1, hc2⟩
  · simp only [dateLe, Bool.not_eq_true'] at h1
    rw [h1] at hc
    simp at hc
  · omega

/-- A truthy hash match on the latest row implies that the direct field
comparison also deems the record unchanged, provided the hash invariant
holds and the canonical strings of the fields involved are bar-free. -/
lemma hashMatches_imp_sameRecord {table : List ConsRow} {uid : String}
    {rec : ConsensusFields} (hinv : hashInv table) (hsep : sepFree rec)
    (hsepT : ∀ r ∈ table, r.uid = uid → sepFree r.fields)
    (hm : hashMatches (latestCons (table.filter (fun r => r.uid = uid)))
      (fingerprint rec) = true) :
    sameRecord (latestCons (table.filter (fun r => r.uid = uid))) rec = true := by
  cases hl : latestCons (table.filter (fun r => r.uid = uid)) with
  | none => rw [hl] at hm; simp [hashMatches] at hm
  | some r =>
      rw [hl] at hm
      have hrmem := latestCons_mem hl
      rw [List.mem_filter] at hrmem
      obtain ⟨hrt, hru⟩ := hrmem
      have hru2 : r.uid = uid := by simpa using hru
      cases hh : r.snapshotHash with
      | none => rw [hashMatches, hh] at hm; simp at hm
      | some h0 =>
          rw [hashMatches, hh] at hm
          simp only [ne_eq, decide_eq_true_eq] at hm
          rcases hinv r hrt with hi | hi


          · rw [hh] at hi
            have hfp : h0 = fingerprint r.fields := by
              injection hi
            have hsf := fingerprint_eq_sameFields (hsepT r hrt hru2) hsep
              (by rw [← hfp, hm.2])
            simp [sameRecord, hsf]
          · rw [hi] at hh; cases hh

lemma strLtChars_trans : ∀ (a b c : List Char), strLtChars a b = true →
    strLtChars b c = true → strLtChars a c = true := by
  intro a
  induction a with
  | nil =>
      intro b c h1 h2
      cases b with
      | nil => simp [strLtChars] at h1
      | cons y ys =>
          cases c with
          | nil => simp [strLtChars] at h2
          | cons z zs => simp [strLtChars]
  | cons x xs ih =>
      intro b c h1 h2
      cases b with
      | nil => simp [strLtChars] at h1
      | cons y ys =>
          cases c with
          | nil => simp [strLtChars] at h2
          | cons z zs =>
              simp only [strLtChars] at h1 h2 ⊢
              by_cases hxy : x.toNat < y.toNat
              · by_cases hyz : y.toNat < z.toNat
                · rw [if_pos (by omega)]
                · by_cases hzy : z.toNat < y.toNat
                  · rw [if_neg hyz, if_pos hzy] at h2
                    cases h2
                  · rw [if_pos (by omega)]
              · rw [if_neg hxy] at h1
                by_cases hyx : y.toNat < x.toNat
                · rw [if_pos hyx] at h1
                  cases h1
                · rw [if_neg hyx] at h1
                  by_cases hyz : y.toNat < z.toNat
                  · rw [if_pos (by omega)]
                  · by_cases hzy : z.toNat < y.toNat
                    · rw [if_neg hyz, if_pos hzy] at h2
                      cases h2
                    · rw [if_neg hyz, if_neg hzy] at h2
                      rw [if_neg (by omega), if_neg (by omega)]
                      exact ih ys zs h1 h2

lemma strLtChars_conn : ∀ (a b : List Char), strLtChars a b = false →
    strLtChars b a = false → a = b := by
  intro a
  induction a with
  | nil =>
      intro b h1 _
      cases b with
      | nil => rfl
      | cons y ys => simp [strLtChars] at h1
  | cons x xs ih =>
      intro b h1 h2
      cases b with
      | nil => simp [strLtChars] at h2
      | cons y ys =>
          simp only [strLtChars] at h1 h2
          by_cases hxy : x.toNat < y.toNat
          · rw [if_pos hxy] at h1
            cases h1
          · by_cases hyx : y.toNat < x.toNat
            · rw [if_pos hyx] at h2
              cases h2
            · rw [if_neg hxy, if_neg hyx] at h1
              rw [if_neg hyx, if_neg hxy] at h2
              have hchar : x = y := by
                have hval : x.toNat = y.toNat := by omega
                exact Char.eq_of_val_eq (UInt32.ext hval)
              rw [hchar, ih ys h1 h2]

lemma dateLt_trans {a b c : String} (h1 : dateLt a b = true)
    (h2 : dateLt b c = true) : dateLt a c = true :=
  strLtChars_trans a.data b.data c.data h1 h2

lemma dateLt_conn {a b : String} (h1 : dateLt a b = false)
    (h2 : dateLt b a = false) : a = b :=
  String.ext (strLtChars_conn a.data b.data h1 h2)

lemma optDateLt_trans {a b c : Option String} (h1 : optDateLt a b = true)
    (h2 : optDateLt b c = true) : optDateLt a c = true := by
  cases a <;> cases b <;> cases c <;>
    simp only [optDateLt] at h1 h2 ⊢ <;>
    first
      | rfl
      | exact h1
      | exact h2
      | exact absurd h1 (by decide)
      | exact absurd h2 (by decide)
      | exact dateLt_trans h1 h2

lemma optDateLt_conn {a b : Option String} (h1 : optDateLt a b = false)
    (h2 : optDateLt b a = false) : a = b := by
  cases a <;> cases b <;>
    simp only [optDateLt] at h1 h2 ⊢ <;>
    first
      | rfl
      | exact absurd h1 (by decide)
      | exact absurd h2 (by decide)
      | exact congrArg some (dateLt_conn h1 h2)

lemma descOrd_total {α : Type} (ltk : α → α → Bool) (idf : α → ℕ)
    (a b : α) : descOrdP ltk idf a b ∨ descOrdP ltk idf b a := by
  unfold descOrdP descOrd
  by_cases h1 : ltk b a = true
  · left; rw [if_pos h1]
  · by_cases h2 : ltk a b = true
    · right; rw [if_pos h2]
    · rcases Nat.le_total (idf b) (idf a) with h | h
      · left
        rw [if_neg h1, if_neg h2]
        simpa using h
      · right
        rw [if_neg h2, if_neg h1]
        simpa using h

lemma descOrd_trans {α : Type} (ltk : α → α → Bool) (idf : α → ℕ)
    (htr : ∀ a b c, ltk a b = true → ltk b c = true → ltk a c = true)
    (hcg : ∀ a b, ltk a b = false → ltk b a = false →
      ∀ z, ltk a z = ltk b z ∧ ltk z a = ltk z b)
    (a b c : α) (h1 : descOrdP ltk idf a b) (h2 : descOrdP ltk idf b c) :
    descOrdP ltk idf a c := by
  unfold descOrdP descOrd at h1 h2 ⊢
  by_cases hba : ltk b a = true
  · by_cases hcb : ltk c b = true
    · rw [if_pos (htr c b a hcb hba)]
    · rw [if_neg hcb] at h2
      by_cases hbc : ltk b c = true
      · rw [if_pos hbc] at h2
        cases h2
      · rw [if_neg hbc] at h2
        have heq := hcg b c (by simpa using hbc) (by simpa using hcb)
        have hca : ltk c a = true := by
          rw [← (heq a).1]
          exact hba
        rw [if_pos hca]
  · rw [if_neg hba] at h1
    by_cases hab : ltk a b = true
    · rw [if_pos hab] at h1
      cases h1
    · rw [if_neg hab] at h1
      have heq := hcg a b (by simpa using hab) (by simpa using hba)
      by_cases hcb : ltk c b = true
      · have hca : ltk c a = true := by
          rw [(heq c).2]
          exact hcb
        rw [if_pos hca]
      · rw [if_neg hcb] at h2
        by_cases hbc : ltk b c = true
        · rw [if_pos hbc] at h2
          cases h2
        · rw [if_neg hbc] at h2
          have hca : ltk c a = false := by
            rw [(heq c).2]
            simpa using hcb
          have hac : ltk a c = false := by
            rw [(heq c).1]
            simpa using hbc
          rw [if_neg (by simp [hca]), if_neg (by simp [hac])]
          simp only [decide_eq_true_eq] at h1 h2 ⊢
          omega

lemma mem_of_idf_mem {α : Type} (idf : α → ℕ) {l S : List α} {r : α}
    (hnodup : (l.map idf).Nodup) (hsub : ∀ x ∈ S, x ∈ l) (hr : r ∈ l)
    (hid : idf r ∈ S.map idf) : r ∈ S := by
  obtain ⟨s, hsS, hse⟩ := List.mem_map.mp hid
  have := List.inj_on_of_nodup_map hnodup (hsub s hsS) hr hse
  rwa [← this]

lemma keepTop_mem {α κ : Type} [DecidableEq κ] (ltk : α → α → Bool)
    (idf : α → ℕ) (g : α → Option κ) (n : ℕ) (l : List α) {r : α} {k : κ}
    (hg : g r = some k) :
    r ∈ keepTop ltk idf g n l ↔ r ∈ l ∧ idf r ∈
      ((List.insertionSort (descOrdP ltk idf)
        (l.filter (fun x => g x = some k))).take n).map idf := by
  unfold keepTop
  rw [List.mem_filter]
  constructor
  · rintro ⟨h1, h2⟩
    rw [hg] at h2
    simp only [decide_eq_true_eq] at h2
    exact ⟨h1, h2⟩
  · rintro ⟨h1, h2⟩
    refine ⟨h1, ?_⟩
    rw [hg]
    simpa using h2

lemma keepTop_group_perm {α κ : Type} [DecidableEq α] [DecidableEq κ]
    (ltk : α → α → Bool) (idf : α → ℕ) (g : α → Option κ) (n : ℕ)
    (l : List α) (hnodup : (l.map idf).Nodup) (k : κ) :
    List.Perm ((keepTop ltk idf g n l).filter (fun r => g r = some k))
      ((List.insertionSort (descOrdP ltk idf)
        (l.filter (fun x => g x = some k))).take n) := by
  have hlnd : l.Nodup := List.Nodup.of_map idf hnodup
  have hperm : List.Perm (List.insertionSort (descOrdP ltk idf)
      (l.filter (fun x => g x = some k))) (l.filter (fun x => g x = some k)) :=
    List.perm_insertionSort _ _
  have hsortnd := hperm.nodup_iff.mpr (hlnd.filter _)
  have hSnd : ((List.insertionSort (descOrdP ltk idf)
      (l.filter (fun x => g x = some k))).take n).Nodup :=
    hsortnd.sublist (List.take_sublist n _)
  have hL1nd : ((keepTop ltk idf g n l).filter
      (fun r => g r = some k)).Nodup := (hlnd.filter _).filter _
  have hSsub : ∀ x ∈ (List.insertionSort (descOrdP ltk idf)
      (l.filter (fun x => g x = some k))).take n, x ∈ l := by
    intro x hx
    have hx2 := hperm.mem_iff.mp (List.take_subset n _ hx)
    exact (List.mem_filter.mp hx2).1
  apply List.perm_of_nodup_nodup_toFinset_eq hL1nd hSnd
  ext r
  simp only [List.mem_toFinset, List.mem_filter]
  constructor
  · rintro ⟨hrk, hgk⟩
    simp only [decide_eq_true_eq] at hgk
    have hmem := (keepTop_mem ltk idf g n l hgk).mp hrk
    exact mem_of_idf_mem idf hnodup hSsub hmem.1 hmem.2
  · intro hrS
    have hrl : r ∈ l := hSsub r hrS
    have hrlk := hperm.mem_iff.mp (List.take_subset n _ hrS)
    have hgk : g r = some k := by
      have := (List.mem_filter.mp hrlk).2
      simpa using this
    refine ⟨(keepTop_mem ltk idf g n l hgk).mpr
      ⟨hrl, List.mem_map_of_mem idf hrS⟩, by simp [hgk]⟩

lemma keepTop_group_length {α κ : Type} [DecidableEq α] [DecidableEq κ]
    (ltk : α → α → Bool) (idf : α → ℕ) (g : α → Option κ) (n : ℕ)
    (l : List α) (hnodup : (l.map idf).Nodup) (k : κ) :
    ((keepTop ltk idf g n l).filter (fun r => g r = some k)).length
      = min n ((l.filter (fun x => g x = some k)).length) := by
  rw [(keepTop_group_perm ltk idf g n l hnodup k).length_eq,
    List.length_take, (List.perm_insertionSort _ _).length_eq]

lemma keepTop_dominates {α κ : Type} [DecidableEq α] [DecidableEq κ]
    (ltk : α → α → Bool) (idf : α → ℕ) (g : α → Option κ) (n : ℕ)
    (l : List α)
    (htr : ∀ a b c, ltk a b = true → ltk b c = true → ltk a c = true)
    (hcg : ∀ a b, ltk a b = false → ltk b a = false →
      ∀ z, ltk a z = ltk b z ∧ ltk z a = ltk z b)
    (hnodup : (l.map idf).Nodup) {k : κ} {r q : α}
    (hr : r ∈ keepTop ltk idf g n l) (hgr : g r = some k)
    (hq : q ∈ l) (hgq : g q = some k)
    (hqn : q ∉ keepTop ltk idf g n l) :
    descOrdP ltk idf r q := by
  letI : IsTotal α (descOrdP ltk idf) := ⟨descOrd_total ltk idf⟩
  letI : IsTrans α (descOrdP ltk idf) :=
    ⟨fun a b c => descOrd_trans ltk idf htr hcg a b c⟩
  have hperm : List.Perm (List.insertionSort (descOrdP ltk idf)
      (l.filter (fun x => g x = some k))) (l.filter (fun x => g x = some k)) :=
    List.perm_insertionSort _ _
  have hsorted : List.Sorted (descOrdP ltk idf)
      (List.insertionSort (descOrdP ltk idf)
        (l.filter (fun x => g x = some k))) :=
    List.sorted_insertionSort _ _
  have hSsub : ∀ x ∈ (List.insertionSort (descOrdP ltk idf)
      (l.filter (fun x => g x = some k))).take n, x ∈ l := by
    intro x hx
    have hx2 := hperm.mem_iff.mp (List.take_subset n _ hx)
    exact (List.mem_filter.mp hx2).1
  have hmem := (keepTop_mem ltk idf g n l hgr).mp hr
  have hrtake : r ∈ (List.insertionSort (descOrdP ltk idf)
      (l.filter (fun x => g x = some k))).take n :=
    mem_of_idf_mem idf hnodup hSsub hmem.1 hmem.2
  have hqsorted : q ∈ List.insertionSort (descOrdP ltk idf)
      (l.filter (fun x => g x = some k)) :=
    hperm.mem_iff.mpr (List.mem_filter.mpr ⟨hq, by simp [hgq]⟩)
  have hqdrop : q ∈ (List.insertionSort (descOrdP ltk idf)
      (l.filter (fun x => g x = some k))).drop n := by
    have hsplit : q ∈ (List.insertionSort (descOrdP ltk idf)
        (l.filter (fun x => g x = some k))).take n
        ++ (List.insertionSort (descOrdP ltk idf)
          (l.filter (fun x => g x = some k))).drop n := by
      rw [List.take_append_drop]
      exact hqsorted
    rcases List.mem_append.mp hsplit with hin | hin
    · exfalso
      exact hqn ((keepTop_mem ltk idf g n l hgq).mpr
        ⟨hq, List.mem_map_of_mem idf hin⟩)
    · exact hin
  exact List.Sorted.rel_of_mem_take_of_mem_drop hsorted hrtake hqdrop

lemma consLt_trans : ∀ a b c : ConsRow, consLt a b = true →
    consLt b c = true → consLt a c = true :=
  fun _ _ _ h1 h2 => dateLt_trans h1 h2

lemma consLt_cg : ∀ a b : ConsRow, consLt a b = false → consLt b a = false →
    ∀ z, consLt a z = consLt b z ∧ consLt z a = consLt z b := by
  intro a b h1 h2 z
  have hd : a.recommendationDate = b.recommendationDate := dateLt_conn h1 h2
  unfold consLt
  rw [hd]
  exact ⟨rfl, rfl⟩

lemma tgtLt_trans : ∀ a b c : TgtRow, tgtLt a b = true →
    tgtLt b c = true → tgtLt a c = true :=
  fun _ _ _ h1 h2 => optDateLt_trans h1 h2

lemma tgtLt_cg : ∀ a b : TgtRow, tgtLt a b = false → tgtLt b a = false →
    ∀ z, tgtLt a z = tgtLt b z ∧ tgtLt z a = tgtLt z b := by
  intro a b h1 h2 z
  have hd : a.recommendationDate = b.recommendationDate := optDateLt_conn h1 h2
  unfold tgtLt
  rw [hd]
  exact ⟨rfl, rfl⟩

/-- C1 counterexample: the claim's equality rules say that a stored empty
recommendation string and an incoming null one differ (one-null-one-value),
so a new row should be inserted; `AddConsensusForecasts` instead treats them
as identical (both via the fingerprint, whose parts collapse null and empty
to `""`, and via `_same_record`, which compares `(x or None)`), performs no
write and skips. -/
theorem C1_append_on_change_cex :
    claimFieldEq ⟨some "T", some "", none, none, none, none⟩
        ⟨some "T", none, none, none, none, none⟩ = false
    ∧ AddConsensusForecasts
        [⟨1, "U1", ⟨some "T", some "", none, none, none, none⟩, "2025-01-01",
          some (fingerprint ⟨some "T", some "", none, none, none, none⟩)⟩]
        "U1" ⟨some "T", none, none, none, none, none⟩ "2025-01-02" 2
      = ([⟨1, "U1", ⟨some "T", some "", none, none, none, none⟩, "2025-01-01",
          some (fingerprint ⟨some "T", some "", none, none, none, none⟩)⟩],
         AddOutcome.skipHash) := by
  decide

/-- C1 (amended): `AddConsensusForecasts` inserts a new row if and only if
the incoming tuple differs from the latest stored row for that uid under the
code's equality rules (strings compared exactly after collapsing null and
empty string, floats with absolute tolerance 1e-6, two nulls equal,
one-null-one-value different), provided the stored hashes satisfy the table
invariant and no canonical field string contains the bar separator; when
equal it performs no write; and re-running with the same upstream record
never changes the table again (so the row count for the uid cannot grow). -/
theorem C1_append_on_change (table : List ConsRow) (uid : String)
    (rec : ConsensusFields) (now now2 : String) (fid fid2 : ℕ)
    (hinv : hashInv table) (hsep : sepFree rec)
    (hsepT : ∀ r ∈ table, r.uid = uid → sepFree r.fields)
    (hdate : ∀ r ∈ table, r.uid = uid → dateLe r.recommendationDate now = true)
    (hid : ∀ r ∈ table, r.id < fid) :
    ((AddConsensusForecasts table uid rec now fid).2 = AddOutcome.inserted
      ↔ sameRecord (latestCons (table.filter (fun r => r.uid = uid))) rec = false)
    ∧ ((AddConsensusForecasts table uid rec now fid).2 ≠ AddOutcome.inserted →
        (AddConsensusForecasts table uid rec now fid).1 = table)
    ∧ (AddConsensusForecasts (AddConsensusForecasts table uid rec now fid).1
        uid rec now2 fid2).1 = (AddConsensusForecasts table uid rec now fid).1 := by
  by_cases hhm : hashMatches
      (latestCons (table.filter (fun r => r.uid = uid))) (fingerprint rec) = true
  · have hsr := hashMatches_imp_sameRecord hinv hsep hsepT hhm
    have e1 : AddConsensusForecasts table uid rec now fid
        = (table, AddOutcome.skipHash) := by
      simp [AddConsensusForecasts, hhm]
    refine ⟨?_, ?_, ?_⟩
    · rw [e1]; simp [hsr]
    · intro _; rw [e1]
    · rw [e1]; simp [AddConsensusForecasts, hhm]
  · by_cases hsr : sameRecord
        (latestCons (table.filter (fun r => r.uid = uid))) rec = true
    · have e1 : AddConsensusForecasts table uid rec now fid
          = (table, AddOutcome.skipFields) := by
        simp [AddConsensusForecasts, hhm, hsr]
      refine ⟨?_, ?_, ?_⟩
      · rw [e1]; simp [hsr]
      · intro _; rw [e1]
      · rw [e1]; simp [AddConsensusForecasts, hhm, hsr]
    · have e1 : AddConsensusForecasts table uid rec now fid
          = (⟨fid, uid, rec, now, some (fingerprint rec)⟩ :: table,
             AddOutcome.inserted) := by
        simp [AddConsensusForecasts, hhm, hsr]
      simp only [Bool.not_eq_true] at hsr
      refine ⟨?_, ?_, ?_⟩
      · rw [e1]; simp [hsr]
      · intro h; rw [e1] at h; simp at h
      · rw [e1]
        have hfilter : ((⟨fid, uid, rec, now, some (fingerprint rec)⟩ :: table :
            List ConsRow).filter (fun r => r.uid = uid))
            = ⟨fid, uid, rec, now, some (fingerprint rec)⟩ ::
              table.filter (fun r => r.uid = uid) := by
          simp [List.filter_cons]
        have hlat : latestCons ((⟨fid, uid, rec, now, some (fingerprint rec)⟩ :
            ConsRow) :: table.filter (fun r => r.uid = uid))
            = some ⟨fid, uid, rec, now, some (fingerprint rec)⟩ := by
          apply latestCons_cons_max
          intro r hr
          rw [List.mem_filter] at hr
          obtain ⟨hrt, hru⟩ := hr
          exact ⟨hdate r hrt (by simpa using hru), hid r hrt⟩
        have hm2 : hashMatches (some (⟨fid, uid, rec, now,
            some (fingerprint rec)⟩ : ConsRow)) (fingerprint rec) = true := by
          simp [hashMatches]
          exact fingerprint_ne_nil rec
        simp [AddConsensusForecasts, hfilter, hlat, hm2]

/-- C1 witness: a concrete run of the amended theorem — one stored row whose
ticker differs from the incoming record, so the record is inserted. -/
theorem C1_append_on_change_witness :
    (AddConsensusForecasts
        [⟨1, "U1", ⟨some "A", none, none, none, none, none⟩, "2025-01-01",
          some (fingerprint ⟨some "A", none, none, none, none, none⟩)⟩]
        "U1" ⟨some "B", none, none, none, none, none⟩ "2025-01-02" 2).2
      = AddOutcome.inserted
    ∧ (AddConsensusForecasts (AddConsensusForecasts
        [⟨1, "U1", ⟨some "A", none, none, none, none, none⟩, "2025-01-01",
          some (fingerprint ⟨some "A", none, none, none, none, none⟩)⟩]
        "U1" ⟨some "B", none, none, none, none, none⟩ "2025-01-02" 2).1
        "U1" ⟨some "B", none, none, none, none, none⟩ "2025-01-03" 3).1
      = (AddConsensusForecasts
        [⟨1, "U1", ⟨some "A", none, none, none, none, none⟩, "2025-01-01",
          some (fingerprint ⟨some "A", none, none, none, none, none⟩)⟩]
        "U1" ⟨some "B", none, none, none, none, none⟩ "2025-01-02" 2).1 := by
  have h := C1_append_on_change
    [⟨1, "U1", ⟨some "A", none, none, none, none, none⟩, "2025-01-01",
      some (fingerprint ⟨some "A", none, none, none, none, none⟩)⟩]
    "U1" ⟨some "B", none, none, none, none, none⟩ "2025-01-02" "2025-01-03" 2 3
    (by decide) (by decide) (by decide) (by decide) (by decide)
  exact ⟨h.1.mpr (by decide), h.2.2⟩

/-- C2 counterexample: two field-tuples whose canonicalized strings collide
through the bar separator (`ticker="X", recommendation="BUY|RUB"` versus
`ticker="X|BUY", recommendation="RUB"`): the fingerprints agree, so the hash
fast path skips, even though the direct field comparison `_same_record`
deems the records different and would have inserted. -/
theorem C2_fastpath_cex :
    fingerprint ⟨some "X", some "BUY|RUB", some "", none, none, none⟩
      = fingerprint ⟨some "X|BUY", some "RUB", some "", none, none, none⟩
    ∧ sameFields ⟨some "X|BUY", some "RUB", some "", none, none, none⟩
        ⟨some "X", some "BUY|RUB", some "", none, none, none⟩ = false
    ∧ AddConsensusForecasts
        [⟨1, "U1", ⟨some "X|BUY", some "RUB", some "", none, none, none⟩,
          "2025-01-01",
          some (fingerprint ⟨some "X|BUY", some "RUB", some "", none, none, none⟩)⟩]
        "U1" ⟨some "X", some "BUY|RUB", some "", none, none, none⟩
        "2025-01-02" 2
      = ([⟨1, "U1", ⟨some "X|BUY", some "RUB", some "", none, none, none⟩,
          "2025-01-01",
          some (fingerprint ⟨some "X|BUY", some "RUB", some "", none, none, none⟩)⟩],
         AddOutcome.skipHash) := by
  decide

/-- C2 (amended): the fingerprint fast path and the direct field comparison
agree whenever no canonical field string contains the bar separator — a hash
match then implies `_same_record`; and unconditionally the combined check
never inserts a record that the field comparison deems unchanged. -/
theorem C2_fastpath_equiv :
    (∀ a b : ConsensusFields, sepFree a → sepFree b →
      fingerprint a = fingerprint b → sameFields a b = true)
    ∧ (∀ (table : List ConsRow) (uid : String) (rec : ConsensusFields)
        (now : String) (fid : ℕ),
        sameRecord (latestCons (table.filter (fun r => r.uid = uid))) rec = true →
        (AddConsensusForecasts table uid rec now fid).1 = table
        ∧ (AddConsensusForecasts table uid rec now fid).2 ≠ AddOutcome.inserted) := by
  constructor
  · exact fun a b ha hb h => fingerprint_eq_sameFields ha hb h
  · intro table uid rec now fid hsr
    by_cases hhm : hashMatches
        (latestCons (table.filter (fun r => r.uid = uid))) (fingerprint rec) = true
    · constructor <;> simp [AddConsensusForecasts, hhm]
    · constructor <;> simp [AddConsensusForecasts, hhm, hsr]

/-- C2 witness: a concrete run of both halves of the amended theorem — a
fingerprint collision caused only by the null/empty-string quotient indeed
satisfies the field comparison, and a duplicate record is not re-inserted. -/
theorem C2_fastpath_equiv_witness :
    sameFields ⟨some "A", none, none, none, none, none⟩
      ⟨some "A", some "", none, none, none, none⟩ = true
    ∧ ((AddConsensusForecasts
        [⟨1, "U1", ⟨some "A", none, none, none, none, none⟩, "2025-01-01", none⟩]
        "U1" ⟨some "A", none, none, none, none, none⟩ "2025-01-02" 2).1
      = [⟨1, "U1", ⟨some "A", none, none, none, none, none⟩, "2025-01-01", none⟩]
      ∧ (AddConsensusForecasts
        [⟨1, "U1", ⟨some "A", none, none, none, none, none⟩, "2025-01-01", none⟩]
        "U1" ⟨some "A", none, none, none, none, none⟩ "2025-01-02" 2).2
        ≠ AddOutcome.inserted) :=
  ⟨C2_fastpath_equiv.1 ⟨some "A", none, none, none, none, none⟩
      ⟨some "A", some "", none, none, none, none⟩ (by decide) (by decide) (by decide),
   C2_fastpath_equiv.2
      [⟨1, "U1", ⟨some "A", none, none, none, none, none⟩, "2025-01-01", none⟩]
      "U1" ⟨some "A", none, none, none, none, none⟩ "2025-01-02" 2 (by decide)⟩

lemma find?_append_none {α} (p : α → Bool) {l1 : List α} (l2 : List α)
    (h : l1.find? p = none) : (l1 ++ l2).find? p = l2.find? p := by
  induction l1 with
  | nil => simp
  | cons x xs ih =>
      rw [List.find?_cons] at h
      cases hp : p x with
      | true => rw [hp] at h; cases h
      | false =>
          rw [hp] at h
          simp only [List.cons_append, List.find?_cons, hp]
          exact ih h

lemma filter_map_length_eq {α} (f : α → α) (p : α → Bool) (l : List α)
    (h : ∀ a, p (f a) = p a) :
    ((l.map f).filter p).length = (l.filter p).length := by
  induction l with
  | nil => rfl
  | cons x xs ih =>
      simp only [List.map_cons, List.filter_cons, h x]
      cases p x <;> simp [ih]

/-- C3 counterexample: on the Gorbunov store (`data_forecasts`,
`consensus_targets` with its unique `(uid, company, recommendationDate)`
index), saving the key (U1, 2025-01-10, BrokerX) with price 100 and then
again with price 200 leaves a single row still carrying price 100 and
reports zero inserts — the second save is dropped by `INSERT OR IGNORE`
instead of updating in place and reporting "updated". -/
theorem C3_target_upsert_cex :
    GAddConsensusTargets
      (GAddConsensusTargets []
        [⟨some "U1", some "TK", some "BrokerX", some "BUY", some "2025-01-10",
          some "RUB", some 100, some "BX"⟩] 1).1
      [⟨some "U1", some "TK", some "BrokerX", some "BUY", some "2025-01-10",
        some "RUB", some 200, some "BX"⟩] 2
    = ([⟨1, "U1", some "TK", some "BrokerX", some "BUY", some "2025-01-10",
        some "RUB", some 100, some "BX"⟩], 0) := by
  decide

/-- C3 (amended): the full upsert protocol holds for
`invest_core.AddConsensusTargets`: on a fresh key the save inserts exactly
one row; an identical second save reports `dup` and changes nothing; a
second save with a different target price reports `updated`, still leaves
exactly one row for the key, and that row carries the new price. The
`data_forecasts` variant also never creates a second row for an existing
key, but drops the change instead of updating. -/
theorem C3_target_upsert (table : List ITgtRow) (rec rec2 : ITargetIn)
    (cs : String) (hcs : rec.company = some cs)
    (h0 : tgtKeyCount table rec = 0)
    (hkey : rec2.uid = rec.uid ∧ rec2.company = rec.company
      ∧ normalizeDate rec2.recommendationDate = normalizeDate rec.recommendationDate)
    (hdiff : rec2.targetPrice ≠ rec.targetPrice)
    (gtable : List TgtRow) (t : TargetIn) (u c d : String) (b : ℕ)
    (hu : orNone t.uid = some u) (hc : orNone t.company = some c)
    (hd : orNone t.recommendationDate = some d)
    (hex : gtable.any (fun r => r.uid = u ∧ r.company = some c
      ∧ r.recommendationDate = some d) = true) :
    ((IAddConsensusTargets table rec).2 = TStatus.inserted
      ∧ tgtKeyCount (IAddConsensusTargets table rec).1 rec = 1)
    ∧ IAddConsensusTargets (IAddConsensusTargets table rec).1 rec
        = ((IAddConsensusTargets table rec).1, TStatus.dup)
    ∧ ((IAddConsensusTargets (IAddConsensusTargets table rec).1 rec2).2
        = TStatus.updated
      ∧ tgtKeyCount (IAddConsensusTargets
          (IAddConsensusTargets table rec).1 rec2).1 rec = 1
      ∧ ∀ r ∈ (IAddConsensusTargets (IAddConsensusTargets table rec).1 rec2).1,
          tgtKeyMatch rec r = true → r.targetPrice = rec2.targetPrice)
    ∧ GAddConsensusTargets gtable [t] b = (gtable, 0) := by
  have hfilter0 : table.filter (tgtKeyMatch rec) = [] :=
    List.length_eq_zero.mp h0
  have hnone : ∀ x ∈ table, ¬(tgtKeyMatch rec x = true) := by
    intro x hx
    exact (List.filter_eq_nil_iff.mp hfilter0) x hx
  have hfind0 : table.find? (tgtKeyMatch rec) = none :=
    List.find?_eq_none.mpr hnone
  have e1 : IAddConsensusTargets table rec
      = (table ++ [mkTgtRow rec], TStatus.inserted) := by
    simp [IAddConsensusTargets, hfind0]
  have hmatchNew : tgtKeyMatch rec (mkTgtRow rec) = true := by
    simp [tgtKeyMatch, mkTgtRow, hcs, sqlEq]
  have hkm : ∀ r, tgtKeyMatch rec2 r = tgtKeyMatch rec r := by
    intro r
    simp [tgtKeyMatch, hkey.1, hkey.2.1, hkey.2.2]
  have hfind1 : (table ++ [mkTgtRow rec]).find? (tgtKeyMatch rec)
      = some (mkTgtRow rec) := by
    rw [find?_append_none (tgtKeyMatch rec) [mkTgtRow rec] hfind0]
    simp [List.find?_cons, hmatchNew]
  have hcount1 : tgtKeyCount (table ++ [mkTgtRow rec]) rec = 1 := by
    unfold tgtKeyCount
    rw [List.filter_append, hfilter0, List.nil_append, List.filter_cons,
      hmatchNew]
    rfl
  refine ⟨⟨by rw [e1], by rw [e1]; exact hcount1⟩, ?_, ?_, ?_⟩
  · rw [e1]
    simp only [IAddConsensusTargets, hfind1]
    rw [if_pos ⟨rfl, rfl, rfl, rfl, rfl⟩]
  · have hfind2 : (table ++ [mkTgtRow rec]).find? (tgtKeyMatch rec2)
        = some (mkTgtRow rec) := by
      rw [funext hkm]
      exact hfind1
    have e2 : IAddConsensusTargets (table ++ [mkTgtRow rec]) rec2
        = ((table ++ [mkTgtRow rec]).map
            (fun x => if tgtKeyMatch rec2 x then tgtUpdate rec2 x else x),
           TStatus.updated) := by
      simp only [IAddConsensusTargets, hfind2]
      rw [if_neg]
      intro hsame
      exact hdiff hsame.2.2.2.1.symm
    have hpres : ∀ x, tgtKeyMatch rec
        ((fun x => if tgtKeyMatch rec2 x then tgtUpdate rec2 x else x) x)
        = tgtKeyMatch rec x := by
      intro x
      show tgtKeyMatch rec
        (if tgtKeyMatch rec2 x = true then tgtUpdate rec2 x else x)
        = tgtKeyMatch rec x
      by_cases hx : tgtKeyMatch rec2 x = true
      · rw [if_pos hx]
        simp [tgtKeyMatch, tgtUpdate]
      · rw [if_neg hx]
    refine ⟨by rw [e1, e2], ?_, ?_⟩
    · rw [e1, e2]
      unfold tgtKeyCount
      rw [filter_map_length_eq _ _ _ hpres]
      exact hcount1
    · rw [e1, e2]
      intro r hr hmr
      rw [List.mem_map] at hr
      obtain ⟨x, hx, hfx⟩ := hr
      by_cases hx2 : tgtKeyMatch rec2 x = true
      · rw [← hfx, if_pos hx2]
        rfl
      · rw [← hfx, if_neg hx2]
        rw [← hfx, if_neg hx2] at hmr
        rw [← hkm x] at hmr
        exact absurd hmr hx2
  · have hex2 := hex
    simp only [List.any_eq_true, decide_eq_true_eq] at hex2
    simp [GAddConsensusTargets, hu, hc, hd, hex2]

/-- C3 witness: a concrete run of the amended theorem on the claim's own
scenario key (uid U1, date 2025-01-10, company BrokerX). -/
theorem C3_target_upsert_witness :
    ((IAddConsensusTargets []
        ⟨"U1", some "TK", some "BrokerX", some "BUY", "2025-01-10",
          some "RUB", some 100, some "BX"⟩).2 = TStatus.inserted
      ∧ tgtKeyCount (IAddConsensusTargets []
          ⟨"U1", some "TK", some "BrokerX", some "BUY", "2025-01-10",
            some "RUB", some 100, some "BX"⟩).1
          ⟨"U1", some "TK", some "BrokerX", some "BUY", "2025-01-10",
            some "RUB", some 100, some "BX"⟩ = 1)
    ∧ IAddConsensusTargets (IAddConsensusTargets []
        ⟨"U1", some "TK", some "BrokerX", some "BUY", "2025-01-10",
          some "RUB", some 100, some "BX"⟩).1
        ⟨"U1", some "TK", some "BrokerX", some "BUY", "2025-01-10",
          some "RUB", some 100, some "BX"⟩
      = ((IAddConsensusTargets []
          ⟨"U1", some "TK", some "BrokerX", some "BUY", "2025-01-10",
            some "RUB", some 100, some "BX"⟩).1, TStatus.dup)
    ∧ ((IAddConsensusTargets (IAddConsensusTargets []
        ⟨"U1", some "TK", some "BrokerX", some "BUY", "2025-01-10",
          some "RUB", some 100, some "BX"⟩).1
        ⟨"U1", some "TK", some "BrokerX", some "BUY", "2025-01-10",
          some "RUB", some 200, some "BX"⟩).2 = TStatus.updated
      ∧ tgtKeyCount (IAddConsensusTargets (IAddConsensusTargets []
          ⟨"U1", some "TK", some "BrokerX", some "BUY", "2025-01-10",
            some "RUB", some 100, some "BX"⟩).1
          ⟨"U1", some "TK", some "BrokerX", some "BUY", "2025-01-10",
            some "RUB", some 200, some "BX"⟩).1
          ⟨"U1", some "TK", some "BrokerX", some "BUY", "2025-01-10",
            some "RUB", some 100, some "BX"⟩ = 1
      ∧ ∀ r ∈ (IAddConsensusTargets (IAddConsensusTargets []
          ⟨"U1", some "TK", some "BrokerX", some "BUY", "2025-01-10",
            some "RUB", some 100, some "BX"⟩).1
          ⟨"U1", some "TK", some "BrokerX", some "BUY", "2025-01-10",
            some "RUB", some 200, some "BX"⟩).1,
          tgtKeyMatch ⟨"U1", some "TK", some "BrokerX", some "BUY",
            "2025-01-10", some "RUB", some 100, some "BX"⟩ r = true →
            r.targetPrice = some 200)
    ∧ GAddConsensusTargets
        [⟨1, "U1", some "TK", some "BrokerX", some "BUY", some "2025-01-10",
          some "RUB", some 100, some "BX"⟩]
        [⟨some "U1", some "TK", some "BrokerX", some "SELL", some "2025-01-10",
          some "RUB", some 300, some "BX"⟩] 7
      = ([⟨1, "U1", some "TK", some "BrokerX", some "BUY", some "2025-01-10",
          some "RUB", some 100, some "BX"⟩], 0) :=
  C3_target_upsert []
    ⟨"U1", some "TK", some "BrokerX", some "BUY", "2025-01-10",
      some "RUB", some 100, some "BX"⟩
    ⟨"U1", some "TK", some "BrokerX", some "BUY", "2025-01-10",
      some "RUB", some 200, some "BX"⟩
    "BrokerX" rfl (by decide) (by decide) (by decide)
    [⟨1, "U1", some "TK", some "BrokerX", some "BUY", some "2025-01-10",
      some "RUB", some 100, some "BX"⟩]
    ⟨some "U1", some "TK", some "BrokerX", some "SELL", some "2025-01-10",
      some "RUB", some 300, some "BX"⟩
    "U1" "BrokerX" "2025-01-10" 7 (by decide) (by decide) (by decide) (by decide)

/-- C4: after the pruner runs with consensus cap `maxC` (age cap disabled),
each uid keeps exactly the `min maxC count` most-recent consensus rows
(date descending, rowid descending as the tie break): the kept rows come
from the original table, their number is exactly `min maxC count`, and
every kept row precedes every deleted row of the same uid in that order;
likewise each (uid, company) pair keeps at most `maxT` target rows.
Rowids are assumed distinct, as sqlite guarantees. -/
theorem C4_retention_cap (cons : List ConsRow) (tgts : List TgtRow)
    (maxC maxT : ℕ) (uid comp : String)
    (hnc : (cons.map ConsRow.id).Nodup) (hnt : (tgts.map TgtRow.id).Nodup) :
    (((PruneHistory cons tgts maxC maxT none 0).1.filter
        (fun r => r.uid = uid)).length
      = min maxC ((cons.filter (fun r => r.uid = uid)).length))
    ∧ (∀ r ∈ (PruneHistory cons tgts maxC maxT none 0).1, r ∈ cons)
    ∧ (∀ r ∈ (PruneHistory cons tgts maxC maxT none 0).1, r.uid = uid →
        ∀ q ∈ cons, q.uid = uid →
          q ∉ (PruneHistory cons tgts maxC maxT none 0).1 →
          descOrdP consLt ConsRow.id r q)
    ∧ (((PruneHistory cons tgts maxC maxT none 0).2.filter
        (fun r => r.uid = uid ∧ r.company = some comp)).length
      = min maxT ((tgts.filter
          (fun r => r.uid = uid ∧ r.company = some comp)).length))
    ∧ (∀ r ∈ (PruneHistory cons tgts maxC maxT none 0).2, r ∈ tgts)
    ∧ (∀ r ∈ (PruneHistory cons tgts maxC maxT none 0).2,
        r.uid = uid → r.company = some comp →
        ∀ q ∈ tgts, q.uid = uid → q.company = some comp →
          q ∉ (PruneHistory cons tgts maxC maxT none 0).2 →
          descOrdP tgtLt TgtRow.id r q) := by
  have e : PruneHistory cons tgts maxC maxT none 0
      = pruneCount cons tgts maxC maxT := rfl
  have hcv : ∀ L : List ConsRow, L.filter (fun r => r.uid = uid)
      = L.filter (fun r => (some r.uid : Option String) = some uid) := by
    intro L
    apply List.filter_congr
    intro x _
    simp
  have htv : ∀ L : List TgtRow,
      L.filter (fun r => r.uid = uid ∧ r.company = some comp)
      = L.filter (fun r => r.company.map (fun c => (r.uid, c))
          = some (uid, comp)) := by
    intro L
    apply List.filter_congr
    intro x _
    cases hxc : x.company <;> simp [hxc, Prod.ext_iff]
  refine ⟨?_, ?_, ?_, ?_, ?_, ?_⟩
  · rw [e]
    show ((keepTop consLt ConsRow.id (fun r => some r.uid) maxC cons).filter
      (fun r => r.uid = uid)).length = _
    rw [hcv, hcv cons]
    exact keepTop_group_length consLt ConsRow.id (fun r => some r.uid)
      maxC cons hnc uid
  · rw [e]
    intro r hr
    exact List.filter_subset' cons hr
  · rw [e]
    intro r hr hru q hq hqu hqn
    exact keepTop_dominates consLt ConsRow.id (fun r => some r.uid) maxC cons
      consLt_trans consLt_cg hnc (k := uid) hr (congrArg some hru) hq
      (congrArg some hqu) hqn
  · rw [e]
    show ((keepTop tgtLt TgtRow.id
        (fun r => r.company.map (fun c => (r.uid, c))) maxT tgts).filter
      (fun r => r.uid = uid ∧ r.company = some comp)).length = _
    rw [htv, htv tgts]
    exact keepTop_group_length tgtLt TgtRow.id
      (fun r => r.company.map (fun c => (r.uid, c))) maxT tgts hnt (uid, comp)
  · rw [e]
    intro r hr
    exact List.filter_subset' tgts hr
  · rw [e]
    intro r hr hru hrc q hq hqu hqc hqn
    exact keepTop_dominates tgtLt TgtRow.id
      (fun r => r.company.map (fun c => (r.uid, c))) maxT tgts
      tgtLt_trans tgtLt_cg hnt (k := (uid, comp)) hr (by simp [hrc, hru]) hq
      (by simp [hqc, hqu]) hqn

/-- C4 witness: two consensus rows and two target rows for one uid with cap
1: the pruner keeps exactly the most recent of each. -/
theorem C4_retention_cap_witness :
    (((PruneHistory
        [⟨1, "U", ⟨none, none, none, none, none, none⟩, "2025-01-01", none⟩,
         ⟨2, "U", ⟨none, none, none, none, none, none⟩, "2025-01-02", none⟩]
        [⟨1, "U", none, some "C", none, some "2025-01-01", none, none, none⟩,
         ⟨2, "U", none, some "C", none, some "2025-01-02", none, none, none⟩]
        1 1 none 0).1.filter (fun r => r.uid = "U")).length
      = min 1 (([⟨1, "U", ⟨none, none, none, none, none, none⟩, "2025-01-01",
          none⟩,
         ⟨2, "U", ⟨none, none, none, none, none, none⟩, "2025-01-02", none⟩] :
         List ConsRow).filter (fun r => r.uid = "U")).length)
    ∧ (∀ r ∈ (PruneHistory
        [⟨1, "U", ⟨none, none, none, none, none, none⟩, "2025-01-01", none⟩,
         ⟨2, "U", ⟨none, none, none, none, none, none⟩, "2025-01-02", none⟩]
        [⟨1, "U", none, some "C", none, some "2025-01-01", none, none, none⟩,
         ⟨2, "U", none, some "C", none, some "2025-01-02", none, none, none⟩]
        1 1 none 0).1,
        r ∈ ([⟨1, "U", ⟨none, none, none, none, none, none⟩, "2025-01-01",
          none⟩,
         ⟨2, "U", ⟨none, none, none, none, none, none⟩, "2025-01-02", none⟩] :
         List ConsRow)) := by
  have h := C4_retention_cap
    [⟨1, "U", ⟨none, none, none, none, none, none⟩, "2025-01-01", none⟩,
     ⟨2, "U", ⟨none, none, none, none, none, none⟩, "2025-01-02", none⟩]
    [⟨1, "U", none, some "C", none, some "2025-01-01", none, none, none⟩,
     ⟨2, "U", none, some "C", none, some "2025-01-02", none, none, none⟩]
    1 1 "U" "C" (by decide) (by decide)
  exact ⟨h.1, h.2.1⟩

/-- C5: with a positive age threshold the pruner removes, from what the
count cap left, exactly the rows whose snapshot date string parses (bare
date or timestamp, trailing `Z`s tolerated) to an instant strictly earlier
than `now` minus the threshold; a row dated exactly at the cutoff is
retained, an unparseable date is never deleted, and appending a `Z` to a
date string never changes the verdict. -/
theorem C5_age_prune (cons : List ConsRow) (tgts : List TgtRow)
    (maxC maxT : ℕ) (d now : ℤ) (hd : 0 < d) :
    ((PruneHistory cons tgts maxC maxT (some d) now).1
        = (pruneCount cons tgts maxC maxT).1.filter
            (fun r => !isOlder (some r.recommendationDate) (now - d * 86400))
      ∧ (PruneHistory cons tgts maxC maxT (some d) now).2
        = (pruneCount cons tgts maxC maxT).2.filter
            (fun r => !isOlder r.recommendationDate (now - d * 86400)))
    ∧ (∀ s : String, isOlder (some s) (now - d * 86400) = true
        ↔ ∃ t, parseIso (stripZ s.data) = some t ∧ t < now - d * 86400)
    ∧ (∀ s : String, parseIso (stripZ s.data) = some (now - d * 86400) →
        isOlder (some s) (now - d * 86400) = false)
    ∧ (∀ (s : String) (c : ℤ),
        isOlder (some (s ++ "Z")) c = isOlder (some s) c) := by
  have hnle : ¬d ≤ 0 := by omega
  refine ⟨⟨?_, ?_⟩, ?_, ?_, ?_⟩
  · simp only [PruneHistory]
    rw [if_neg hnle]
  · simp only [PruneHistory]
    rw [if_neg hnle]
  · intro s
    by_cases hs : s = ""
    · subst hs
      constructor
      · intro h
        simp [isOlder] at h
      · rintro ⟨t, ht, _⟩
        have h0 : parseIso (stripZ ("" : String).data) = none := rfl
        rw [h0] at ht
        cases ht
    · simp only [isOlder]
      rw [if_neg hs]
      cases hp : parseIso (stripZ s.data) with
      | none =>
          simp [hp]
      | some t =>
          simp [hp]
  · intro s hp
    by_cases hs : s = ""
    · subst hs
      simp [isOlder]
    · simp only [isOlder]
      rw [if_neg hs, hp]
      simp
  · intro s c
    have hdata : (s ++ "Z").data = s.data ++ ['Z'] := String.data_append s "Z"
    have hstrip : stripZ ((s ++ "Z").data) = stripZ s.data := by
      rw [hdata]
      unfold stripZ
      rw [List.reverse_append]
      simp [List.dropWhile]
    have hne : ¬(s ++ "Z") = "" := by
      intro h
      have h2 := congrArg String.data h
      rw [hdata] at h2
      simp at h2
    simp only [isOlder]
    rw [if_neg hne, hstrip]
    by_cases hs : s = ""
    · subst hs
      rw [if_pos rfl]
      have h0 : parseIso (stripZ ("" : String).data) = none := rfl
      rw [h0]
    · rw [if_neg hs]

/-- C5 witness: threshold 1 day with "now" at 2024-10-12 midnight: the row
dated 2024-10-10 (one day older than the cutoff) is deleted, the row dated
exactly at the cutoff 2024-10-11 is retained, an unparseable date is never
old, and a trailing `Z` never changes the verdict. -/
theorem C5_age_prune_witness :
    (PruneHistory
      [⟨1, "U", ⟨none, none, none, none, none, none⟩, "2024-10-10", none⟩,
       ⟨2, "U", ⟨none, none, none, none, none, none⟩, "2024-10-11", none⟩]
      [] 5 5 (some 1) ((daysFromCivil 2024 10 12 : ℕ) * 86400)).1
      = [⟨2, "U", ⟨none, none, none, none, none, none⟩, "2024-10-11", none⟩]
    ∧ (isOlder (some "not-a-date")
        ((daysFromCivil 2024 10 11 : ℕ) * 86400) = false)
    ∧ (∀ c : ℤ, isOlder (some ("2024-10-10" ++ "Z")) c
        = isOlder (some "2024-10-10") c) := by
  have h := C5_age_prune
    [⟨1, "U", ⟨none, none, none, none, none, none⟩, "2024-10-10", none⟩,
     ⟨2, "U", ⟨none, none, none, none, none, none⟩, "2024-10-11", none⟩]
    [] 5 5 1 ((daysFromCivil 2024 10 12 : ℕ) * 86400) (by decide)
  refine ⟨?_, by decide, fun c => h.2.2.2 "2024-10-10" c⟩
  rw [h.1.1]
  decide

lemma strLtChars_irrefl : ∀ l : List Char, strLtChars l l = false := by
  intro l
  induction l with
  | nil => rfl
  | cons c cs ih => simp [strLtChars, ih]

lemma dateLt_irrefl (s : String) : dateLt s s = false :=
  strLtChars_irrefl s.data

/-- C6: the price-history window policy: with no stored bars and no
override the request runs from `today - 1100` through today; with stored
bars it starts the day after the newest one (empty when that passes
today); an explicit start after the end makes the fetch a no-op inserting
zero rows; and the configurable-horizon variant of the bulk loader behaves
the same way. -/
theorem C6_price_window (table : List Bar) (board secid : String)
    (today horizon : ℤ) (rows : List Bar) (s e m : ℤ) :
    (maxTradeDate table board secid = none →
      getMoexWindow today none none (maxTradeDate table board secid)
        = some (today - 1100, today))
    ∧ (maxTradeDate table board secid = some m →
        getMoexWindow today none none (maxTradeDate table board secid)
          = if today < m + 1 then none else some (m + 1, today))
    ∧ (e < s →
        GetMoexHistory table board secid today (some s) (some e) rows
          = (table, 0))
    ∧ loadAllWindow today horizon none = some (today - horizon, today)
    ∧ (loadAllWindow today horizon (some m)
        = if m + 1 ≤ today then some (m + 1, today) else none) := by
  refine ⟨?_, ?_, ?_, rfl, rfl⟩
  · intro h
    simp only [getMoexWindow, h, Option.getD_none, DEFAULT_HORIZON_DAYS]
    rw [if_neg (by omega)]
  · intro h
    simp only [getMoexWindow, h, Option.getD_none]
  · intro h
    simp only [GetMoexHistory, getMoexWindow, Option.getD_some]
    rw [if_pos h]

/-- C6 witness: an empty store requests the full default window; an
inverted explicit range inserts nothing; a store whose newest bar is
yesterday requests only today. -/
theorem C6_price_window_witness :
    getMoexWindow 20000 none none (maxTradeDate [] "TQBR" "PLZL")
      = some (20000 - 1100, 20000)
    ∧ GetMoexHistory [] "TQBR" "PLZL" 20000 (some 10) (some 5)
        [⟨"TQBR", "PLZL", 7⟩] = ([], 0)
    ∧ loadAllWindow 20000 1100 (some 19999) = some (20000, 20000) := by
  have h := C6_price_window [] "TQBR" "PLZL" 20000 1100
    [⟨"TQBR", "PLZL", 7⟩] 10 5 19999
  refine ⟨h.1 (by decide), h.2.2.1 (by decide), ?_⟩
  rw [h.2.2.2.2]
  decide

lemma relUnchanged_iff (a b : Option ℚ) : relUnchanged a b = true
    ↔ ∃ lr r, a = some lr ∧ b = some r ∧ |lr - r| < tol9 := by
  cases a <;> cases b <;> simp [relUnchanged]

lemma latestPotAux_mem : ∀ (l : List PotRow) (a r : PotRow),
    l.foldl (fun acc r =>
      match acc with
      | none => some r
      | some a => if dateLt a.computedAt r.computedAt then some r else acc)
      (some a) = some r → r = a ∨ r ∈ l := by
  intro l
  induction l with
  | nil =>
      intro a r h
      simp at h
      exact Or.inl h.symm
  | cons x xs ih =>
      intro a r h
      simp only [List.foldl_cons] at h
      by_cases hc : dateLt a.computedAt x.computedAt = true
      · rw [if_pos hc] at h
        rcases ih x r h with h1 | h1
        · exact Or.inr (h1 ▸ List.mem_cons_self x xs)
        · exact Or.inr (List.mem_cons_of_mem x h1)
      · rw [if_neg hc] at h
        rcases ih a r h with h1 | h1
        · exact Or.inl h1
        · exact Or.inr (List.mem_cons_of_mem x h1)

lemma latestPot_append_max {pots : List PotRow} {row : PotRow} {uid : String}
    (hrow : row.uid = uid)
    (h : ∀ r ∈ pots, r.uid = uid → dateLt r.computedAt row.computedAt = true) :
    latestPot (pots ++ [row]) uid = some row := by
  unfold latestPot
  rw [List.filter_append, List.foldl_append]
  have hfr : List.filter (fun r => decide (r.uid = uid)) [row] = [row] := by
    simp [hrow]
  rw [hfr]
  cases hacc : (List.filter (fun r => decide (r.uid = uid)) pots).foldl
      (fun acc r =>
        match acc with
        | none => some r
        | some a => if dateLt a.computedAt r.computedAt then some r else acc)
      none with
  | none => rfl
  | some a =>
      have hmem : a ∈ pots.filter (fun r => decide (r.uid = uid)) := by
        cases hl : pots.filter (fun r => decide (r.uid = uid)) with
        | nil => rw [hl] at hacc; cases hacc
        | cons x xs =>
            rw [hl] at hacc
            simp only [List.foldl_cons] at hacc
            rcases latestPotAux_mem xs x a hacc with h1 | h1
            · exact h1 ▸ List.mem_cons_self x xs
            · exact List.mem_cons_of_mem x h1
      have hm2 := List.mem_filter.mp hmem
      have hd := h a hm2.1 (by simpa using hm2.2)
      simp only [List.foldl_cons, List.foldl_nil]
      rw [if_pos hd]

/-- C7 counterexample: with the latest close moved from 1 to
`1 + 1e-10` — a nonzero change — the newly computed relative potential
moves by less than `1e-9`, so `CalculateSharesPotential` skips the write
and no new row is added, contradicting "changing the close price by any
nonzero amount adds a new row". -/
theorem C7_potential_dedup_cex :
    ((1 : ℚ) ≠ 1 + 1 / 10000000000)
    ∧ (CalculateSharesPotential
        [⟨"S", "2025-01-02", SqlVal.num (1 + 1 / 10000000000)⟩]
        [⟨"U", "2025-01-01", SqlVal.num 1⟩]
        [⟨"U", "S", none, "2025-01-01T00:00:00.000", some (1 : ℚ), some 1, some 0⟩]
        "S" "U" none "2025-01-02T00:00:00.000" "alt" false).1
      = [⟨"U", "S", none, "2025-01-01T00:00:00.000", some (1 : ℚ), some 1,
          some 0⟩] := by
  constructor
  · norm_num
  · have h1 : ("S" : String) ≠ "" := by decide
    have h2 : ("U" : String) ≠ "" := by decide
    have h3 : ("2025-01-01T00:00:00.000" : String)
        ≠ "2025-01-02T00:00:00.000" := by decide
    norm_num [CalculateSharesPotential, calcRel, lastPrevClose, lastConsPrice,
      GetLastCloseBySecId, GetLastConsensusByUid, latestClose, latestPCons,
      lastRelOf, latestPot, relUnchanged, validPrice, priceFilter, MAX_PRICE,
      tol9, List.filter, List.foldl, h1, h2, h3, abs]

/-- C7 (amended): the calculator skips the write exactly when the stored
and newly computed relative potentials are both non-null and differ by
strictly less than `1e-9` (or when `skip_null` is set and the new value is
null); a skip leaves the table unchanged, a write appends exactly one row;
and recomputing with unchanged underlying data adds no second row provided
the computed relative potential is non-null and the first write's
timestamp postdates every stored record of the uid. -/
theorem C7_potential_dedup (hist : List CloseRow) (cons : List PConsRow)
    (pots : List PotRow) (secid uid : String) (ticker : Option String)
    (ts1 alt1 ts2 alt2 : String) (sn : Bool)
    (hPots : ∀ r ∈ pots, r.uid = uid → dateLt r.computedAt ts1 = true)
    (hRel : calcRel hist cons secid uid ≠ none) :
    ((CalculateSharesPotential hist cons pots secid uid ticker ts1 alt1
        sn).2.skipped = true
      ↔ (∃ lr r, lastRelOf pots uid = some lr
          ∧ calcRel hist cons secid uid = some r ∧ |lr - r| < tol9)
        ∨ (sn = true ∧ calcRel hist cons secid uid = none))
    ∧ ((CalculateSharesPotential hist cons pots secid uid ticker ts1 alt1
        sn).2.skipped = true →
      (CalculateSharesPotential hist cons pots secid uid ticker ts1 alt1
        sn).1 = pots)
    ∧ ((CalculateSharesPotential hist cons pots secid uid ticker ts1 alt1
        sn).2.skipped = false →
      (CalculateSharesPotential hist cons pots secid uid ticker ts1 alt1
        sn).1.length = pots.length + 1)
    ∧ (CalculateSharesPotential hist cons
        (CalculateSharesPotential hist cons pots secid uid ticker ts1 alt1
          sn).1 secid uid ticker ts2 alt2 sn).1
      = (CalculateSharesPotential hist cons pots secid uid ticker ts1 alt1
          sn).1 := by
  by_cases hU : relUnchanged (lastRelOf pots uid)
      (calcRel hist cons secid uid) = true
  · have e1 : CalculateSharesPotential hist cons pots secid uid ticker ts1
        alt1 sn = (pots, ⟨calcRel hist cons secid uid, true, true⟩) := by
      simp [CalculateSharesPotential, hU]
    refine ⟨?_, ?_, ?_, ?_⟩
    · rw [e1]
      exact ⟨fun _ => Or.inl ((relUnchanged_iff _ _).mp hU), fun _ => rfl⟩
    · intro _
      rw [e1]
    · intro h
      rw [e1] at h
      exact absurd h (by simp)
    · rw [e1]
      simp [CalculateSharesPotential, hU]
  · by_cases hN : sn = true ∧ calcRel hist cons secid uid = none
    · exact absurd hN.2 hRel
    · have hcoll : pots.any
          (fun r => r.uid = uid ∧ r.computedAt = ts1) = false := by
        rw [List.any_eq_false]
        intro r hr
        simp only [decide_eq_true_eq, not_and]
        intro hru hts
        have := hPots r hr hru
        rw [hts] at this
        rw [dateLt_irrefl] at this
        cases this
      have e1 : CalculateSharesPotential hist cons pots secid uid ticker ts1
          alt1 sn
          = (pots ++ [⟨uid, secid, ticker, ts1, lastPrevClose hist secid,
              lastConsPrice cons uid, calcRel hist cons secid uid⟩],
             ⟨calcRel hist cons secid uid, false, false⟩) := by
        simp only [CalculateSharesPotential]
        rw [if_neg hU, if_neg hN, hcoll]
        simp
      obtain ⟨rv, hrv⟩ := Option.ne_none_iff_exists'.mp hRel
      refine ⟨?_, ?_, ?_, ?_⟩
      · rw [e1]
        refine ⟨fun h => Bool.noConfusion h, fun hc => ?_⟩
        exfalso
        rcases hc with ⟨lr, r, hl, hr2, hlt⟩ | hc
        · exact hU ((relUnchanged_iff _ _).mpr ⟨lr, r, hl, hr2, hlt⟩)
        · exact hN hc
      · intro h
        rw [e1] at h
        exact Bool.noConfusion h
      · intro _
        rw [e1]
        simp
      · rw [e1]
        have hlat : latestPot (pots ++ [⟨uid, secid, ticker, ts1,
            lastPrevClose hist secid, lastConsPrice cons uid,
            calcRel hist cons secid uid⟩]) uid
            = some ⟨uid, secid, ticker, ts1, lastPrevClose hist secid,
                lastConsPrice cons uid, calcRel hist cons secid uid⟩ :=
          latestPot_append_max rfl hPots
        have hU2 : relUnchanged (lastRelOf (pots ++ [⟨uid, secid, ticker,
            ts1, lastPrevClose hist secid, lastConsPrice cons uid,
            calcRel hist cons secid uid⟩]) uid)
            (calcRel hist cons secid uid) = true := by
          unfold lastRelOf
          rw [hlat, hrv]
          show relUnchanged (some rv) (some rv) = true
          simp only [relUnchanged, decide_eq_true_eq, sub_self, abs_zero, tol9]
          norm_num
        simp [CalculateSharesPotential, hU2]

/-- C7 witness: a fresh instrument gets a row on the first computation and
the immediate recomputation with unchanged data adds nothing. -/
theorem C7_potential_dedup_witness :
    ((CalculateSharesPotential [⟨"S", "2025-01-01", SqlVal.num 50⟩]
        [⟨"U", "2025-01-01", SqlVal.num 100⟩] [] "S" "U" none
        "2025-01-02T00:00:00.000" "a1" false).2.skipped = false →
      (CalculateSharesPotential [⟨"S", "2025-01-01", SqlVal.num 50⟩]
        [⟨"U", "2025-01-01", SqlVal.num 100⟩] [] "S" "U" none
        "2025-01-02T00:00:00.000" "a1" false).1.length = 0 + 1)
    ∧ (CalculateSharesPotential [⟨"S", "2025-01-01", SqlVal.num 50⟩]
        [⟨"U", "2025-01-01", SqlVal.num 100⟩]
        (CalculateSharesPotential [⟨"S", "2025-01-01", SqlVal.num 50⟩]
          [⟨"U", "2025-01-01", SqlVal.num 100⟩] [] "S" "U" none
          "2025-01-02T00:00:00.000" "a1" false).1 "S" "U" none
        "2025-01-03T00:00:00.000" "a2" false).1
      = (CalculateSharesPotential [⟨"S", "2025-01-01", SqlVal.num 50⟩]
          [⟨"U", "2025-01-01", SqlVal.num 100⟩] [] "S" "U" none
          "2025-01-02T00:00:00.000" "a1" false).1 := by
  have h := C7_potential_dedup [⟨"S", "2025-01-01", SqlVal.num 50⟩]
    [⟨"U", "2025-01-01", SqlVal.num 100⟩] [] "S" "U" none
    "2025-01-02T00:00:00.000" "a1" "2025-01-03T00:00:00.000" "a2" false
    (by decide) (by decide)
  exact ⟨h.2.2.1, h.2.2.2⟩

lemma validPrice_none_of_anomalous : ∀ v : SqlVal, anomalous v = true →
    validPrice v = none := by
  intro v h
  cases v with
  | null => simp [anomalous] at h
  | num q =>
      simp only [anomalous, decide_eq_true_eq] at h
      simp only [validPrice, priceFilter]
      by_cases h0 : q ≤ 0
      · rw [if_pos h0]
      · rw [if_neg h0,
          if_pos (by rcases h with h | h; exacts [absurd h h0, h])]
  | text s =>
      simp only [validPrice]
      cases hp : floatOfChars
          (s.data.map (fun c => if c = ',' then '.' else c)) with
      | none => rfl
      | some q =>
          simp only [anomalous] at h
          rw [hp] at h
          simp only [decide_eq_true_eq] at h
          simp only [priceFilter]
          by_cases h0 : q ≤ 0
          · rw [if_pos h0]
          · rw [if_neg h0,
              if_pos (by rcases h with h | h; exacts [absurd h h0, h])]

/-- C10: whenever the latest stored consensus price (or close price) is
present but anomalous — non-numeric text, non-positive, or above
`MAX_PRICE` — the potential calculator treats it as absent and the
computed relative potential is null. -/
theorem C10_anomalous_price_filter (hist : List CloseRow)
    (cons : List PConsRow) (secid uid : String) :
    (∀ r : PConsRow, latestPCons cons uid = some r →
      anomalous r.priceConsensus = true →
      lastConsPrice cons uid = none ∧ calcRel hist cons secid uid = none)
    ∧ (∀ r : CloseRow, latestClose hist secid = some r →
      anomalous r.close = true →
      lastPrevClose hist secid = none ∧ calcRel hist cons secid uid = none) := by
  constructor
  · intro r hr ha
    have hv := validPrice_none_of_anomalous _ ha
    have hc : lastConsPrice cons uid = none := by
      unfold lastConsPrice GetLastConsensusByUid
      by_cases hu : uid = ""
      · rw [if_pos hu]
        rfl
      · rw [if_neg hu, hr]
        simp [hv]
    refine ⟨hc, ?_⟩
    unfold calcRel
    rw [hc]
    cases lastPrevClose hist secid <;> rfl
  · intro r hr ha
    have hv := validPrice_none_of_anomalous _ ha
    have hc : lastPrevClose hist secid = none := by
      unfold lastPrevClose GetLastCloseBySecId
      by_cases hu : secid = ""
      · rw [if_pos hu]
        rfl
      · rw [if_neg hu, hr]
        simp [hv]
    refine ⟨hc, ?_⟩
    unfold calcRel
    rw [hc]

/-- C10 witness: a non-numeric consensus price text and an
above-the-cap close are both present in the tables yet yield a null
relative potential. -/
theorem C10_anomalous_price_filter_witness :
    (lastConsPrice [⟨"U", "2025-01-01", SqlVal.text "abc"⟩] "U" = none
      ∧ calcRel [⟨"S", "2025-01-01", SqlVal.num 2000000⟩]
          [⟨"U", "2025-01-01", SqlVal.text "abc"⟩] "S" "U" = none)
    ∧ (lastPrevClose [⟨"S", "2025-01-01", SqlVal.num 2000000⟩] "S" = none
      ∧ calcRel [⟨"S", "2025-01-01", SqlVal.num 2000000⟩]
          [⟨"U", "2025-01-01", SqlVal.text "abc"⟩] "S" "U" = none) := by
  have h := C10_anomalous_price_filter
    [⟨"S", "2025-01-01", SqlVal.num 2000000⟩]
    [⟨"U", "2025-01-01", SqlVal.text "abc"⟩] "S" "U"
  exact ⟨h.1 ⟨"U", "2025-01-01", SqlVal.text "abc"⟩ (by decide) (by decide),
    h.2 ⟨"S", "2025-01-01", SqlVal.num 2000000⟩ (by decide) (by decide)⟩

lemma pairwise_key_filter_le_one {l : List IPotRow}
    (h : l.Pairwise
      (fun a b => ¬(a.uid = b.uid ∧ a.computedDate = b.computedDate)))
    (u2 d2 : String) :
    (l.filter (fun r => r.uid = u2 ∧ r.computedDate = d2)).length ≤ 1 := by
  have hp : (l.filter (fun r => r.uid = u2 ∧ r.computedDate = d2)).Pairwise
      (fun a b => ¬(a.uid = b.uid ∧ a.computedDate = b.computedDate)) :=
    h.sublist (List.filter_sublist _)
  cases hl : l.filter (fun r => r.uid = u2 ∧ r.computedDate = d2) with
  | nil => simp
  | cons x xs =>
      cases xs with
      | nil => simp
      | cons y ys =>
          exfalso
          rw [hl] at hp
          have hR := (List.pairwise_cons.mp hp).1 y (List.mem_cons_self y ys)
          have hpx := List.of_mem_filter (l := l)
            (by rw [hl]; exact List.mem_cons_self x (y :: ys))
          have hpy := List.of_mem_filter (l := l)
            (by rw [hl]; exact List.mem_cons_of_mem x (List.mem_cons_self y ys))
          simp only [decide_eq_true_eq] at hpx hpy
          exact hR ⟨hpx.1.trans hpy.1.symm, hpx.2.trans hpy.2.symm⟩

lemma insertOrReplace_pairwise {pots : List IPotRow} {row : IPotRow}
    (h : pots.Pairwise
      (fun a b => ¬(a.uid = b.uid ∧ a.computedDate = b.computedDate))) :
    (insertOrReplaceIPot pots row).Pairwise
      (fun a b => ¬(a.uid = b.uid ∧ a.computedDate = b.computedDate)) := by
  unfold insertOrReplaceIPot
  rw [List.pairwise_append]
  refine ⟨?_, List.pairwise_singleton _ _, ?_⟩
  · exact h.sublist (List.filter_sublist _)
  · intro a ha b hb
    have hpa := List.of_mem_filter ha
    simp only [decide_eq_true_eq] at hpa
    rw [List.mem_singleton] at hb
    subst hb
    exact hpa

lemma key_filter_split (pots : List IPotRow) (u d : String) :
    (pots.filter (fun r => r.uid = u ∧ r.computedDate = d)).length
      + (pots.filter (fun r => ¬(r.uid = u ∧ r.computedDate = d))).length
      = pots.length := by
  induction pots with
  | nil => rfl
  | cons x xs ih =>
      by_cases hx : x.uid = u ∧ x.computedDate = d
      · have h1 : (x :: xs).filter (fun r => r.uid = u ∧ r.computedDate = d)
            = x :: xs.filter (fun r => r.uid = u ∧ r.computedDate = d) :=
          List.filter_cons_of_pos (by simpa using hx)
        have h2 : (x :: xs).filter
              (fun r => ¬(r.uid = u ∧ r.computedDate = d))
            = xs.filter (fun r => ¬(r.uid = u ∧ r.computedDate = d)) :=
          List.filter_cons_of_neg (by simpa using hx)
        rw [h1, h2]
        simp only [List.length_cons]
        omega
      · have h1 : (x :: xs).filter (fun r => r.uid = u ∧ r.computedDate = d)
            = xs.filter (fun r => r.uid = u ∧ r.computedDate = d) :=
          List.filter_cons_of_neg (by simpa using hx)
        have h2 : (x :: xs).filter
              (fun r => ¬(r.uid = u ∧ r.computedDate = d))
            = x :: xs.filter (fun r => ¬(r.uid = u ∧ r.computedDate = d)) :=
          List.filter_cons_of_pos (by simp only [decide_eq_true_eq]; exact hx)
        rw [h1, h2]
        simp only [List.length_cons]
        omega

lemma insertOrReplace_length {pots : List IPotRow} {row : IPotRow}
    (hcount : (pots.filter
      (fun r => r.uid = row.uid ∧ r.computedDate = row.computedDate)).length
      = 1) :
    (insertOrReplaceIPot pots row).length = pots.length := by
  have h := key_filter_split pots row.uid row.computedDate
  unfold insertOrReplaceIPot
  rw [List.length_append]
  simp only [List.length_singleton]
  omega

lemma computeAllStep_cases (consT : List ConsRow) (hist : List GHistRow)
    (pots : List IPotRow) (uid : String) (ticker : Option String)
    (secid : Option String) (today : String) (now staleDays : ℤ)
    (force : Bool) :
    computeAllStep consT hist pots uid ticker secid today now staleDays force
      = pots
    ∨ ∃ row : IPotRow, row.uid = uid ∧ row.computedDate = today
      ∧ computeAllStep consT hist pots uid ticker secid today now staleDays
          force
        = insertOrReplaceIPot pots row := by
  simp only [computeAllStep]
  split
  · exact Or.inr ⟨_, rfl, rfl, rfl⟩
  · exact Or.inl rfl

/-- C8 counterexample: two runs of `CalculateSharesPotential`
(`shares_potentials`, keyed by full timestamp) on the same calendar day —
the consensus having moved in between — leave two rows for the same uid
whose computation timestamps fall on the same day, so the table is not
keyed by (uid, computation date). -/
theorem C8_one_per_day_cex :
    ((CalculateSharesPotential [⟨"S", "2025-01-01", SqlVal.num 50⟩]
        [⟨"U", "2025-01-02", SqlVal.num 200⟩]
        (CalculateSharesPotential [⟨"S", "2025-01-01", SqlVal.num 50⟩]
          [⟨"U", "2025-01-01", SqlVal.num 100⟩] [] "S" "U" none
          "2025-01-10T10:00:00.000" "a1" false).1
        "S" "U" none "2025-01-10T11:00:00.000" "a2" false).1.map
      (fun r => (r.uid, r.computedAt))
      = [("U", "2025-01-10T10:00:00.000"), ("U", "2025-01-10T11:00:00.000")])
    ∧ dayOf "2025-01-10T10:00:00.000" = dayOf "2025-01-10T11:00:00.000" := by
  constructor
  · have h1 : ("S" : String) ≠ "" := by decide
    have h2 : ("U" : String) ≠ "" := by decide
    have h3 : ("2025-01-10T10:00:00.000" : String)
        ≠ "2025-01-10T11:00:00.000" := by decide
    norm_num [CalculateSharesPotential, calcRel, lastPrevClose, lastConsPrice,
      GetLastCloseBySecId, GetLastConsensusByUid, latestClose, latestPCons,
      lastRelOf, latestPot, relUnchanged, validPrice, priceFilter, MAX_PRICE,
      tol9, List.filter, List.foldl, h1, h2, h3, abs]
  · decide

/-- C8 (amended): the invariant holds of the Gorbunov
`instrument_potentials` writer: one `compute_all` store step preserves
uniqueness of the (uid, computedDate) key, leaves at most one row per key,
and a same-day rewrite replaces that day's row in place without growing
the table. The invest_core `shares_potentials` writer cited alongside it
is keyed by full timestamp and does admit several rows per day. -/
theorem C8_one_per_day (consT : List ConsRow) (hist : List GHistRow)
    (pots : List IPotRow) (uid : String) (ticker : Option String)
    (secid : Option String) (today : String) (now staleDays : ℤ)
    (force : Bool)
    (huniq : pots.Pairwise
      (fun a b => ¬(a.uid = b.uid ∧ a.computedDate = b.computedDate))) :
    (computeAllStep consT hist pots uid ticker secid today now staleDays
        force).Pairwise
      (fun a b => ¬(a.uid = b.uid ∧ a.computedDate = b.computedDate))
    ∧ (∀ u2 d2 : String,
        ((computeAllStep consT hist pots uid ticker secid today now staleDays
          force).filter
          (fun r => r.uid = u2 ∧ r.computedDate = d2)).length ≤ 1)
    ∧ (pots.any (fun r => r.uid = uid ∧ r.computedDate = today) = true →
        (computeAllStep consT hist pots uid ticker secid today now staleDays
          force).length = pots.length) := by
  rcases computeAllStep_cases consT hist pots uid ticker secid today now
      staleDays force with heq | ⟨row, hu, hd, heq⟩
  · rw [heq]
    exact ⟨huniq, fun u2 d2 => pairwise_key_filter_le_one huniq u2 d2,
      fun _ => rfl⟩
  · rw [heq]
    have hpw := @insertOrReplace_pairwise pots row huniq
    refine ⟨hpw, fun u2 d2 => pairwise_key_filter_le_one hpw u2 d2, ?_⟩
    intro hany
    apply insertOrReplace_length
    rw [hu, hd]
    have hle := pairwise_key_filter_le_one huniq uid today
    rw [List.any_eq_true] at hany
    obtain ⟨r, hr, hpr⟩ := hany
    simp only [decide_eq_true_eq] at hpr
    have hmem : r ∈ pots.filter
        (fun r => r.uid = uid ∧ r.computedDate = today) := by
      rw [List.mem_filter]
      exact ⟨hr, by simp [hpr.1, hpr.2]⟩
    have hpos : 0 < (pots.filter
        (fun r => r.uid = uid ∧ r.computedDate = today)).length :=
      List.length_pos_of_mem hmem
    omega

/-- C8 witness: a table holding yesterday's row for an instrument is
rewritten today; the key stays unique and a same-day retry does not grow
the table. -/
theorem C8_one_per_day_witness :
    ([(⟨"U", none, "2025-01-09", none, none, none, false⟩ : IPotRow)].Pairwise
      (fun a b => ¬(a.uid = b.uid ∧ a.computedDate = b.computedDate)))
    ∧ ((computeAllStep [] []
        [⟨"U", none, "2025-01-09", none, none, none, false⟩] "U" none none
        "2025-01-10" 0 10 false).Pairwise
        (fun a b => ¬(a.uid = b.uid ∧ a.computedDate = b.computedDate))
      ∧ (∀ u2 d2 : String,
          ((computeAllStep [] []
            [⟨"U", none, "2025-01-09", none, none, none, false⟩] "U" none
            none "2025-01-10" 0 10 false).filter
            (fun r => r.uid = u2 ∧ r.computedDate = d2)).length ≤ 1)
      ∧ ([(⟨"U", none, "2025-01-09", none, none, none, false⟩ : IPotRow)].any
            (fun r => r.uid = "U" ∧ r.computedDate = "2025-01-10") = true →
          (computeAllStep [] []
            [⟨"U", none, "2025-01-09", none, none, none, false⟩] "U" none
            none "2025-01-10" 0 10 false).length
          = [(⟨"U", none, "2025-01-09", none, none, none,
              false⟩ : IPotRow)].length)) :=
  ⟨by simp,
   C8_one_per_day [] [] [⟨"U", none, "2025-01-09", none, none, none, false⟩]
     "U" none none "2025-01-10" 0 10 false (by simp)⟩

lemma syncFold_stats
    (fetch : String → Except Unit (Option ConsensusMsg × List TargetIn))
    (now : String) :
    ∀ (uids : List String) (st : SyncState) (s : SyncStats),
    (uids.foldl (syncStep fetch now) (st, s)).2
      = ⟨s.total, s.updated + (uids.filter (fetchGood fetch)).length,
         s.empty + (uids.filter (fetchEmpty fetch)).length,
         s.errors + (uids.filter (fetchErr fetch)).length⟩ := by
  intro uids
  induction uids with
  | nil =>
      intro st s
      simp [List.foldl]
  | cons u us ih =>
      intro st s
      cases hf : fetch u with
      | error e =>
          have h1 : fetchGood fetch u = false := by simp [fetchGood, hf]
          have h2 : fetchEmpty fetch u = false := by simp [fetchEmpty, hf]
          have h3 : fetchErr fetch u = true := by simp [fetchErr, isOkB, hf]
          simp only [List.foldl_cons, syncStep, hf]
          rw [ih]
          simp [List.filter_cons, h1, h2, h3]
          omega
      | ok pr =>
          obtain ⟨c, ts⟩ := pr
          by_cases he : c = none ∧ ts = []
          · have h1 : fetchGood fetch u = false := by
              simp [fetchGood, hf, he.1, he.2]
            have h2 : fetchEmpty fetch u = true := by
              simp [fetchEmpty, hf, he.1, he.2]
            have h3 : fetchErr fetch u = false := by simp [fetchErr, isOkB, hf]
            simp only [List.foldl_cons, syncStep, hf, if_pos he]
            rw [ih]
            simp [List.filter_cons, h1, h2, h3]
            omega
          · have h1 : fetchGood fetch u = true := by simp [fetchGood, hf, he]
            have h2 : fetchEmpty fetch u = false := by simp [fetchEmpty, hf, he]
            have h3 : fetchErr fetch u = false := by simp [fetchErr, isOkB, hf]
            simp only [List.foldl_cons, syncStep, hf, if_neg he]
            rw [ih]
            simp [List.filter_cons, h1, h2, h3]
            omega

lemma syncFold_state_indep
    (fetch : String → Except Unit (Option ConsensusMsg × List TargetIn))
    (now : String) :
    ∀ (uids : List String) (st : SyncState) (s1 s2 : SyncStats),
    (uids.foldl (syncStep fetch now) (st, s1)).1
      = (uids.foldl (syncStep fetch now) (st, s2)).1 := by
  intro uids
  induction uids with
  | nil =>
      intro st s1 s2
      rfl
  | cons u us ih =>
      intro st s1 s2
      cases hf : fetch u with
      | error e =>
          simp only [List.foldl_cons, syncStep, hf]
          exact ih st _ _
      | ok pr =>
          obtain ⟨c, ts⟩ := pr
          by_cases he : c = none ∧ ts = []
          · simp only [List.foldl_cons, syncStep, hf, if_pos he]
            exact ih st _ _
          · simp only [List.foldl_cons, syncStep, hf, if_neg he]
            exact ih _ _ _

lemma syncFold_state_filter
    (fetch : String → Except Unit (Option ConsensusMsg × List TargetIn))
    (now : String) :
    ∀ (uids : List String) (acc : SyncState × SyncStats),
    (uids.foldl (syncStep fetch now) acc).1
      = ((uids.filter (fun u => isOkB (fetch u))).foldl
          (syncStep fetch now) acc).1 := by
  intro uids
  induction uids with
  | nil =>
      intro acc
      rfl
  | cons u us ih =>
      intro acc
      cases hf : fetch u with
      | error e =>
          have hb : isOkB (fetch u) = false := by simp [isOkB, hf]
          simp only [List.foldl_cons, List.filter_cons, hb, Bool.false_eq_true,
            if_false, syncStep, hf]
          exact (ih _).trans
            (syncFold_state_indep fetch now (us.filter _) acc.1 _ acc.2)
      | ok pr =>
          have hb : isOkB (fetch u) = true := by simp [isOkB, hf]
          simp only [List.foldl_cons, List.filter_cons, hb, if_true]
          exact ih _

/-- C9: every fetch failure inside the update loop is absorbed into the
error counter; the resulting database state is exactly that of processing
only the non-failing instruments; and in a batch of five instruments where
only the third one's fetch throws, the report is 5 total, 4 updated,
0 empty, 1 error. -/
theorem C9_partial_failure (uids : List String)
    (fetch : String → Except Unit (Option ConsensusMsg × List TargetIn))
    (st0 : SyncState) (now : String) :
    ((UpdateConsensusForecasts uids fetch st0 now).2.total = uids.length
      ∧ (UpdateConsensusForecasts uids fetch st0 now).2.errors
        = (uids.filter (fetchErr fetch)).length
      ∧ (UpdateConsensusForecasts uids fetch st0 now).2.updated
        = (uids.filter (fetchGood fetch)).length
      ∧ (UpdateConsensusForecasts uids fetch st0 now).2.empty
        = (uids.filter (fetchEmpty fetch)).length)
    ∧ (UpdateConsensusForecasts uids fetch st0 now).1
      = (UpdateConsensusForecasts (uids.filter (fun u => isOkB (fetch u)))
          fetch st0 now).1
    ∧ (UpdateConsensusForecasts ["I1", "I2", "I3", "I4", "I5"]
        (fun u => if u = "I3" then Except.error () else
          Except.ok (some ⟨some u, ⟨some "T", none, none, none, none, none⟩⟩,
            []))
        ⟨[], [], 1⟩ "2025-01-01").2
      = ⟨5, 4, 0, 1⟩ := by
  refine ⟨?_, ?_, ?_⟩
  · unfold UpdateConsensusForecasts
    rw [syncFold_stats fetch now uids st0 ⟨uids.length, 0, 0, 0⟩]
    exact ⟨rfl, by simp, by simp, by simp⟩
  · unfold UpdateConsensusForecasts
    rw [syncFold_state_filter fetch now uids (st0, ⟨uids.length, 0, 0, 0⟩)]
    exact syncFold_state_indep fetch now (uids.filter _) st0 _ _
  · decide

end Invest
